import Mathlib

/-!
# Referral commission engine of Qashgo (`src/utils/referralSystem.js`)

A shallow embedding of the referral commission code and the properties it is
documented to have.

Modelling conventions, all fixed here once:

* JavaScript numbers that hold money are integers (`Int`); a column that may
  be `null` is an `Option`.
* The Supabase tables `users` and `referrals` are lists of rows (`Store`).
* Every call on the Supabase client is one awaited persistence call.  The
  behaviour of the persistence layer is an oracle `Faults` that says, for the
  n-th call issued in a run, whether it succeeds, resolves with an `error`
  field, or rejects (throws at the `await`).  A failed call leaves the tables
  as they were.  Every call, failed or not, is recorded in the `log`.
-/

namespace Qashgo

/-! ## Data model -/

/-- Primary key of a `users` row. -/
abbrev UserId := Nat

/-- A row of the `users` table, restricted to the columns the referral and
balance code reads or writes. -/
structure User where
  id : UserId
  referral_code : String
  referred_by_code : Option String
  account_active : Bool
  balance : Option Int
  withdrawable_balance : Option Int
  youtube_balance : Option Int
  tiktok_balance : Option Int
  welcome_bonus : Option Int
  total_withdrawals : Option Int
deriving DecidableEq

/-- A row of the `referrals` table, as inserted by `processReferralCommissions`. -/
structure Referral where
  referrer_id : UserId
  referred_id : UserId
  level : Int
  commission : Int
  paid : Bool
deriving DecidableEq

/-- The two tables the commission code works on. -/
structure Store where
  users : List User
  referrals : List Referral
deriving DecidableEq

/-! ## The persistence layer -/

/-- Behaviour of one awaited persistence call. -/
inductive Fault where
  /-- the call reaches the database and resolves with its result -/
  | ok
  /-- the call resolves with `data: null` and an `error` object -/
  | error
  /-- the awaited promise rejects: an exception is thrown at the `await` -/
  | throws
deriving DecidableEq

/-- The failure behaviour of the persistence layer during a run: the outcome of
the n-th call issued (counted from the start of the log). -/
abbrev Faults := Nat → Fault

/-- A persistence layer on which every call succeeds. -/
def reliable : Faults := fun _ => Fault.ok

/-- A persistence call issued by the code. -/
inductive Op where
  /-- `from('users').select(..).eq('referral_code', code).single()` -/
  | select (code : String)
  /-- `from('referrals').insert(row)` -/
  | insert (row : Referral)
  /-- `from('users').update({balance, withdrawable_balance}).eq('id', id)` -/
  | update (id : UserId) (balance withdrawable_balance : Int)
deriving DecidableEq

/-- The state a run threads through: the tables and the calls issued so far. -/
structure World where
  store : Store
  log : List Op
deriving DecidableEq

/-- Outcome of an awaited computation: it resolves with a value or rejects
(an exception propagates); the world reached is kept in both cases. -/
inductive Await (α : Type) where
  | resolved (value : α) (w : World)
  | rejected (w : World)

/-- The world an awaited computation ends in. -/
def Await.world {α : Type} : Await α → World
  | .resolved _ w => w
  | .rejected w => w

/-- An asynchronous computation on the world. -/
abbrev Async (α : Type) := World → Await α

/-- Sequencing of awaited computations (`await x; k`): a rejection of `x`
skips `k`. -/
def Async.bind {α β : Type} (x : Async α) (k : α → Async β) : Async β := fun w =>
  match x w with
  | .resolved a w' => k a w'
  | .rejected w' => .rejected w'

/-- A computation that resolves at once. -/
def Async.pure {α : Type} (a : α) : Async α := fun w => .resolved a w

/-- The `{ data, error }` object a Supabase query resolves with. -/
structure Reply (α : Type) where
  data : Option α
  error : Bool

/-- The modifier `.single()`: the row when the query matched exactly one row,
otherwise `data: null` with an error. -/
def single (rows : List User) : Reply User :=
  match rows with
  | [u] => { data := some u, error := false }
  | _ => { data := none, error := true }

/-- The query `from('users').select(cols).eq('referral_code', code).single()`.
The whole row is returned; the callers read only the selected columns. -/
def selectByReferralCode (f : Faults) (code : String) : Async (Reply User) := fun w =>
  let w' : World := { w with log := w.log ++ [Op.select code] }
  match f w.log.length with
  | .ok => .resolved (single (w.store.users.filter (fun u => u.referral_code = code))) w'
  | .error => .resolved { data := none, error := true } w'
  | .throws => .rejected w'

/-- The effect of a successful `from('referrals').insert(row)` on the tables. -/
def Store.insertReferral (s : Store) (row : Referral) : Store :=
  { s with referrals := s.referrals ++ [row] }

/-- The effect of a successful
`from('users').update({balance, withdrawable_balance}).eq('id', id)`. -/
def Store.updateBalances (s : Store) (id : UserId) (balance withdrawable_balance : Int) : Store :=
  { s with users := s.users.map (fun u =>
      if u.id = id then
        { u with balance := some balance, withdrawable_balance := some withdrawable_balance }
      else u) }

/-- The call `await supabase.from('referrals').insert(row)`; the code never looks
at what it resolves with. -/
def insertReferral (f : Faults) (row : Referral) : Async Unit := fun w =>
  let log' := w.log ++ [Op.insert row]
  match f w.log.length with
  | .ok => .resolved () { store := w.store.insertReferral row, log := log' }
  | .error => .resolved () { w with log := log' }
  | .throws => .rejected { w with log := log' }

/-- The call `await supabase.from('users').update({..}).eq('id', id)`; the code
never looks at what it resolves with. -/
def updateBalances (f : Faults) (id : UserId) (balance withdrawable_balance : Int) :
    Async Unit := fun w =>
  let log' := w.log ++ [Op.update id balance withdrawable_balance]
  match f w.log.length with
  | .ok => .resolved () { store := w.store.updateBalances id balance withdrawable_balance, log := log' }
  | .error => .resolved () { w with log := log' }
  | .throws => .rejected { w with log := log' }

/-! ## `referralSystem.js` -/

/-- The JavaScript idiom `x || 0` on a nullable number. -/
def orZero : Option Int → Int
  | some n => n
  | none => 0

/-- A nullable string used as a condition and then as a value: `some code` when
the string is truthy (present and non-empty). -/
def truthyCode : Option String → Option String
  | some code => if code = "" then none else some code
  | none => none

/-- The object literal `commissions` of `calculateCommissions`. -/
def commissions : List (Int × Int) := [(1, 1800), (2, 900), (3, 500)]

/-- `calculateCommissions(level, amount = 4000)`: `commissions[level] || 0`.
`amount` is `none` when the argument is omitted. -/
def calculateCommissions (level : Int) (amount : Option Int) : Int :=
  let _amount := amount.getD 4000
  orZero (commissions.lookup level)

/-- Lines 71-92 of `processReferralCommissions`: the level-3 payout, entered
with the level-2 referrer row. -/
def payLevel3 (f : Faults) (newUserId : UserId) (referrerL2 : User) : Async Unit :=
  match truthyCode referrerL2.referred_by_code with
  | some code =>
    Async.bind (selectByReferralCode f code) fun r3 =>
    match r3.data, r3.error with
    | some referrerL3, false =>
      let commissionL3 := calculateCommissions 3 none
      Async.bind (insertReferral f
        { referrer_id := referrerL3.id, referred_id := newUserId, level := 3,
          commission := commissionL3, paid := true }) fun _ =>
      updateBalances f referrerL3.id
        (orZero referrerL3.balance + commissionL3)
        (orZero referrerL3.withdrawable_balance + commissionL3)
    | _, _ => Async.pure ()
  | none => Async.pure ()

/-- Lines 50-94 of `processReferralCommissions`: the level-2 payout, entered
with the level-1 referrer row. -/
def payLevel2 (f : Faults) (newUserId : UserId) (referrerL1 : User) : Async Unit :=
  match truthyCode referrerL1.referred_by_code with
  | some code =>
    Async.bind (selectByReferralCode f code) fun r2 =>
    match r2.data, r2.error with
    | some referrerL2, false =>
      let commissionL2 := calculateCommissions 2 none
      Async.bind (insertReferral f
        { referrer_id := referrerL2.id, referred_id := newUserId, level := 2,
          commission := commissionL2, paid := true }) fun _ =>
      Async.bind (updateBalances f referrerL2.id
        (orZero referrerL2.balance + commissionL2)
        (orZero referrerL2.withdrawable_balance + commissionL2)) fun _ =>
      payLevel3 f newUserId referrerL2
    | _, _ => Async.pure ()
  | none => Async.pure ()

/-- Lines 25-94 of `processReferralCommissions`: the body of the `try` block. -/
def tryBlock (f : Faults) (referrerCode : String) (newUserId : UserId) : Async Unit :=
  Async.bind (selectByReferralCode f referrerCode) fun r1 =>
  match r1.error, r1.data with
  | false, some referrerL1 =>
    let commissionL1 := calculateCommissions 1 none
    Async.bind (insertReferral f
      { referrer_id := referrerL1.id, referred_id := newUserId, level := 1,
        commission := commissionL1, paid := true }) fun _ =>
    Async.bind (updateBalances f referrerL1.id
      (orZero referrerL1.balance + commissionL1)
      (orZero referrerL1.withdrawable_balance + commissionL1)) fun _ =>
    payLevel2 f newUserId referrerL1
  | _, _ => Async.pure ()

/-- `processReferralCommissions(referrerCode, newUserId)`.  `referrerCode` is
`none` for `null` or `undefined`.  The `catch` clause only logs, so a rejection
inside the `try` block becomes a normal return. -/
def processReferralCommissions (f : Faults) (referrerCode : Option String)
    (newUserId : UserId) : Async Unit := fun w =>
  match truthyCode referrerCode with
  | none => .resolved () w
  | some code =>
    match tryBlock f code newUserId w with
    | .resolved _ w' => .resolved () w'
    | .rejected w' => .resolved () w'

/-! ## Specification vocabulary -/

/-- The user a referral code resolves to: the one row whose `referral_code`
is `code`, if there is exactly one. -/
def resolve (s : Store) (code : String) : Option User :=
  (single (s.users.filter (fun u => u.referral_code = code))).data

/-- A user with `n` added to `balance` and `withdrawable_balance`, an absent
(`null`) previous value counting as 0. -/
def credit (n : Int) (u : User) : User :=
  { u with balance := some (orZero u.balance + n),
           withdrawable_balance := some (orZero u.withdrawable_balance + n) }

/-- Credit `n` to the user with key `id`, leave every other row alone. -/
def creditUser (id : UserId) (n : Int) (u : User) : User :=
  if u.id = id then credit n u else u

/-- The keys of the users a referral code leads to by walking up the
`referred_by_code` links of the store, at most `n` of them: the walk stops at
an absent or empty code and at a code that resolves to no user. -/
def ancestorIds (s : Store) : Nat → Option String → List UserId
  | 0, _ => []
  | n + 1, code =>
    match truthyCode code with
    | none => []
    | some c =>
      match resolve s c with
      | none => []
      | some u => u.id :: ancestorIds s n u.referred_by_code

/-- The referral edges that pay the users `ids` for the new user `d`, the first
at level `lvl`, the next at `lvl + 1`, and so on. -/
def edgesFor (d : UserId) : Int → List UserId → List Referral
  | _, [] => []
  | lvl, id :: ids =>
    { referrer_id := id, referred_id := d, level := lvl,
      commission := calculateCommissions lvl none, paid := true } :: edgesFor d (lvl + 1) ids

/-- What the payouts to the users `ids` (the first at level `lvl`) do to a row. -/
def creditChain : Int → List UserId → User → User
  | _, [], u => u
  | lvl, id :: ids, u => creditChain (lvl + 1) ids (creditUser id (calculateCommissions lvl none) u)

/-- The store after the users `ids` were paid for the new user `d`, the first
at level `lvl`. -/
def payChain (s : Store) (d : UserId) (lvl : Int) (ids : List UserId) : Store :=
  { users := s.users.map (creditChain lvl ids), referrals := s.referrals ++ edgesFor d lvl ids }

/-- Two rows agree on every column other than `balance` and
`withdrawable_balance`. -/
def SameProfile (u v : User) : Prop :=
  v.id = u.id ∧ v.referral_code = u.referral_code ∧ v.referred_by_code = u.referred_by_code ∧
  v.account_active = u.account_active ∧ v.youtube_balance = u.youtube_balance ∧
  v.tiktok_balance = u.tiktok_balance ∧ v.welcome_bonus = u.welcome_bonus ∧
  v.total_withdrawals = u.total_withdrawals

/-- A change of rows that writes only `balance` and `withdrawable_balance`, and
only on rows whose key is in `ids`. -/
def TouchesOnly (ids : List UserId) (g : User → User) : Prop :=
  ∀ u, SameProfile u (g u) ∧ (u.id ∉ ids → g u = u)

/-- The store `s'` differs from `s` by payouts to users among `ids` for the new
user `d`: some of the edges `edgesFor d lvl ids` were appended, in order, and
only balances of rows with a key in `ids` were written. -/
def Paid (d : UserId) (lvl : Int) (ids : List UserId) (s s' : Store) : Prop :=
  ∃ g es, s'.users = s.users.map g ∧ s'.referrals = s.referrals ++ es ∧
    TouchesOnly ids g ∧ es.Sublist (edgesFor d lvl ids)

/-- The triple that identifies what a referral edge pays: who is paid, for whom,
at which level. -/
def edgeKey (e : Referral) : UserId × UserId × Int := (e.referrer_id, e.referred_id, e.level)

/-- A sequence of calls `processReferralCommissions(code, newUserId)`, one after
the other, each awaited before the next. -/
def runCalls (f : Faults) : List (Option String × UserId) → World → World
  | [], w => w
  | (code, newUserId) :: rest, w =>
    runCalls f rest (processReferralCommissions f code newUserId w).world

/-- An organic user row with the given key, referral code, recruiter code and
balance; the other balances are 0. -/
def mkUser (id : UserId) (code : String) (referredBy : Option String) (bal : Option Int) : User :=
  { id := id, referral_code := code, referred_by_code := referredBy, account_active := false,
    balance := bal, withdrawable_balance := bal, youtube_balance := some 0,
    tiktok_balance := some 0, welcome_bonus := some 0, total_withdrawals := some 0 }

/-- Example rows: ALICE recruited BOB, BOB recruited CAROL, CAROL recruited DAVE. -/
def alice : User := mkUser 1 "ALICE" none (some 100)

/-- Example row recruited by ALICE. -/
def bob : User := mkUser 2 "BOB" (some "ALICE") none

/-- Example row recruited by BOB. -/
def carol : User := mkUser 3 "CAROL" (some "BOB") (some 0)

/-- Example row recruited by CAROL. -/
def dave : User := mkUser 4 "DAVE" (some "CAROL") (some 50)

/-- An example store: a chain of four users and no referral edge yet. -/
def demoStore : Store := { users := [alice, bob, carol, dave], referrals := [] }

/-- Example row whose recruiter code belongs to no user. -/
def erin : User := mkUser 5 "ERIN" (some "NOBODY") (some 10)

/-- An example store with a dangling `referred_by_code`. -/
def danglingStore : Store := { users := [alice, erin], referrals := [] }

/-! ## The read side: settings, bonus eligibility, referral counts

The functions of `referralSystem.js` from line 101 on only read.  They run
against a database that holds, besides the two tables of `Store`, the
`bonus_settings` table and the `claimed_bonuses` table.  Each query is one
awaited call; `ReadFaults` says whether the n-th query of a run succeeds,
resolves with an error object, or rejects. -/

/-- A row of the `bonus_settings` table; every column is nullable. -/
structure BonusSettingsRow where
  welcome_bonus_amount : Option Int
  referral_target : Option Int
  bonus_enabled : Option Bool
  affiliation_fee_fcfa : Option Int
deriving DecidableEq

/-- A row of the `claimed_bonuses` table. -/
structure ClaimedBonus where
  user_id : UserId
  type : String
  amount : Int
deriving DecidableEq

/-- The database the read side runs against.  `bonus_settings` is `none` when
the table does not exist. -/
structure Db where
  store : Store
  bonus_settings : Option (List BonusSettingsRow)
  claimed_bonuses : List ClaimedBonus
deriving DecidableEq

/-- The `error` object of a Supabase reply. -/
structure PgError where
  code : Option String
  message : Option String
deriving DecidableEq

/-- Behaviour of one awaited query. -/
inductive ReadFault where
  /-- the query reaches the database and resolves with its result -/
  | ok
  /-- the query resolves with `data: null` and this `error` object -/
  | error (e : PgError)
  /-- the awaited promise rejects -/
  | throws
deriving DecidableEq

/-- The failure behaviour of the persistence layer during a run of reads: the
outcome of the n-th query issued. -/
abbrev ReadFaults := Nat → ReadFault

/-- A persistence layer on which every query succeeds. -/
def dependable : ReadFaults := fun _ => ReadFault.ok

/-- A query issued by the read side. -/
inductive Read where
  /-- `from('bonus_settings').select('*').limit(1).single()` -/
  | bonusSettings
  /-- `from('referrals').select('*').eq('referrer_id', u).order('created_at', ..)` -/
  | referralsOf (u : UserId)
  /-- `from('users').select(..).eq('id', id).single()` -/
  | userById (id : UserId)
  /-- `from('referrals').select('level, referred_id, users!..(account_active)').eq('referrer_id', u)` -/
  | referralsWithUsers (u : UserId)
deriving DecidableEq

/-- Outcome of an awaited read computation: a value or a rejection, with the
queries issued so far. -/
inductive Outcome (α : Type) where
  | resolved (value : α) (log : List Read)
  | rejected (log : List Read)
deriving DecidableEq

/-- An asynchronous read computation: it extends the log of queries. -/
abbrev Reading (α : Type) := List Read → Outcome α

/-- Sequencing (`const a = await x; k a`): a rejection of `x` skips `k`. -/
def Reading.bind {α β : Type} (x : Reading α) (k : α → Reading β) : Reading β := fun log =>
  match x log with
  | .resolved a log' => k a log'
  | .rejected log' => .rejected log'

/-- A computation that resolves at once (`return a`). -/
def Reading.pure {α : Type} (a : α) : Reading α := fun log => .resolved a log

/-- The statement `throw e`. -/
def Reading.throw {α : Type} : Reading α := fun log => .rejected log

/-- The statement `try { body } catch (error) { handler }`. -/
def Reading.tryCatch {α : Type} (body handler : Reading α) : Reading α := fun log =>
  match body log with
  | .resolved a log' => .resolved a log'
  | .rejected log' => handler log'

/-- The `{ data, error }` object a query resolves with. -/
structure ReadReply (α : Type) where
  data : Option α
  error : Option PgError

/-- One awaited query `op` whose result on a working persistence layer is
`result`. -/
def runQuery {α : Type} (f : ReadFaults) (op : Read) (result : ReadReply α) :
    Reading (ReadReply α) := fun log =>
  match f log.length with
  | .ok => .resolved result (log ++ [op])
  | .error e => .resolved { data := none, error := some e } (log ++ [op])
  | .throws => .rejected (log ++ [op])

/-- The error PostgREST reports when `.single()` does not find exactly one row. -/
def noSingleRow : PgError :=
  { code := some "PGRST116",
    message := some "JSON object requested, multiple (or no) rows returned" }

/-- The error Postgres reports for a table that does not exist. -/
def undefinedTable (table : String) : PgError :=
  { code := some "42P01",
    message := some ("relation \"public." ++ table ++ "\" does not exist") }

/-- The query `from('bonus_settings').select('*').limit(1).single()`. -/
def selectBonusSettings (f : ReadFaults) (db : Db) : Reading (ReadReply BonusSettingsRow) :=
  runQuery f Read.bonusSettings
    (match db.bonus_settings with
     | none => { data := none, error := some (undefinedTable "bonus_settings") }
     | some [] => { data := none, error := some noSingleRow }
     | some (row :: _) => { data := some row, error := none })

/-- The query `from('referrals').select('*').eq('referrer_id', userId)
.order('created_at', { ascending: false })`: rows are kept in insertion order,
so the newest comes first in the reversed list. -/
def selectReferralsOf (f : ReadFaults) (db : Db) (userId : UserId) :
    Reading (ReadReply (List Referral)) :=
  runQuery f (Read.referralsOf userId)
    { data := some (db.store.referrals.filter (fun e => e.referrer_id = userId)).reverse,
      error := none }

/-- The query `from('users').select('id, username, name, email, account_active')
.eq('id', id).single()`. -/
def selectUserById (f : ReadFaults) (db : Db) (id : UserId) : Reading (ReadReply User) :=
  runQuery f (Read.userById id)
    (match db.store.users.filter (fun u => u.id = id) with
     | [u] => { data := some u, error := none }
     | _ => { data := none, error := some noSingleRow })

/-- The JavaScript idiom `x || d` on a nullable number. -/
def orDefault (x : Option Int) (d : Int) : Int :=
  match x with
  | some n => if n = 0 then d else n
  | none => d

/-- The method `String.prototype.includes`. -/
def includes (s pattern : String) : Bool :=
  s.toList.tails.any (fun t => pattern.toList.isPrefixOf t)

/-- The object `getBonusSettings` returns. -/
structure BonusSettings where
  bonusAmount : Int
  targetReferrals : Int
  bonusEnabled : Bool
  affiliationFeeFcfa : Int
deriving DecidableEq

/-- The object literal returned by `getBonusSettings` on its fallback paths. -/
def defaultSettings : BonusSettings :=
  { bonusAmount := 700, targetReferrals := 15, bonusEnabled := true, affiliationFeeFcfa := 4000 }

/-- `getBonusSettings()`, lines 158-195. -/
def getBonusSettings (f : ReadFaults) (db : Db) : Reading BonusSettings :=
  Reading.tryCatch
    (Reading.bind (selectBonusSettings f db) fun reply =>
      match reply.error with
      | some error =>
        if error.code = some "PGRST116" ∨ error.code = some "42P01" ∨
            (match error.message with
             | some m => includes m "relation \"bonus_settings\" does not exist"
             | none => false) = true then
          Reading.pure defaultSettings
        else
          Reading.throw
      | none =>
        Reading.pure
          { bonusAmount := orDefault (reply.data.bind (·.welcome_bonus_amount)) 700,
            targetReferrals := orDefault (reply.data.bind (·.referral_target)) 15,
            bonusEnabled := decide (reply.data.bind (·.bonus_enabled) ≠ some false),
            affiliationFeeFcfa := orDefault (reply.data.bind (·.affiliation_fee_fcfa)) 4000 })
    (Reading.pure defaultSettings)

/-- `getAffiliationFee()`, lines 198-206. -/
def getAffiliationFee (f : ReadFaults) (db : Db) : Reading Int :=
  Reading.tryCatch
    (Reading.bind (getBonusSettings f db) fun settings => Reading.pure settings.affiliationFeeFcfa)
    (Reading.pure 4000)

/-- The object stored under `referred_user` by `getUserReferralsManual`,
reduced to the properties that are read later. -/
structure ReferredUser where
  id : UserId
  account_active : Bool
deriving DecidableEq

/-- An element of the array `getUserReferralsManual` returns: the object literal
`{ ...referral, name: value }`, that is the columns of the `referrals` row
and the properties the literal adds, under the names it gives them. -/
structure EnrichedReferral where
  row : Referral
  added : List (String × ReferredUser)
deriving DecidableEq

/-- Reading an object-valued property `r.name`: no column of a `referrals` row
holds an object, so the value is the property of that name the literal added,
or `undefined`. -/
def EnrichedReferral.prop (r : EnrichedReferral) (name : String) : Option ReferredUser :=
  r.added.lookup name

/-- The loop `for (const referral of referrals)` of `getUserReferralsManual`,
lines 124-147. -/
def enrichReferrals (f : ReadFaults) (db : Db) :
    List Referral → List EnrichedReferral → Reading (List EnrichedReferral)
  | [], enrichedReferrals => Reading.pure enrichedReferrals
  | referral :: rest, enrichedReferrals =>
    Reading.bind (selectUserById f db referral.referred_id) fun reply =>
      match reply.error, reply.data with
      | none, some user =>
        enrichReferrals f db rest (enrichedReferrals ++
          [{ row := referral,
             added := [("referred_user", { id := user.id, account_active := user.account_active })] }])
      | _, _ =>
        enrichReferrals f db rest (enrichedReferrals ++
          [{ row := referral,
             added := [("referred_user", { id := referral.referred_id, account_active := false })] }])

/-- `getUserReferralsManual(userId)`, lines 110-155. -/
def getUserReferralsManual (f : ReadFaults) (db : Db) (userId : UserId) :
    Reading (List EnrichedReferral) :=
  Reading.tryCatch
    (Reading.bind (selectReferralsOf f db userId) fun reply =>
      match reply.error, reply.data with
      | none, some referrals => enrichReferrals f db referrals []
      | _, _ => Reading.pure [])
    (Reading.pure [])

/-- `getUserReferrals(userId)`, lines 101-108. -/
def getUserReferrals (f : ReadFaults) (db : Db) (userId : UserId) :
    Reading (List EnrichedReferral) :=
  Reading.tryCatch (getUserReferralsManual f db userId) (Reading.pure [])

/-- The object `calculateBonusEligibility` returns. -/
structure BonusEligibility where
  currentReferrals : Int
  bonusEligible : Bool
  bonusAmount : Int
  remainingReferrals : Int
  targetReferrals : Int
  bonusDisabled : Bool
deriving DecidableEq

/-- The filter of line 225:
`r => r.level === 1 && r.referredUser?.account_active`. -/
def isDirectActive (r : EnrichedReferral) : Bool :=
  decide (r.row.level = 1) &&
    (match r.prop "referredUser" with
     | some referredUser => referredUser.account_active
     | none => false)

/-- `calculateBonusEligibility(userId)`, lines 208-248. -/
def calculateBonusEligibility (f : ReadFaults) (db : Db) (userId : UserId) :
    Reading BonusEligibility :=
  Reading.tryCatch
    (Reading.bind (getBonusSettings f db) fun bonusSettings =>
      if bonusSettings.bonusEnabled = false then
        Reading.pure
          { currentReferrals := 0, bonusEligible := false,
            bonusAmount := bonusSettings.bonusAmount,
            remainingReferrals := bonusSettings.targetReferrals,
            targetReferrals := bonusSettings.targetReferrals, bonusDisabled := true }
      else
        Reading.bind (getUserReferrals f db userId) fun userReferrals =>
          let directActiveReferrals := userReferrals.filter isDirectActive
          Reading.pure
            { currentReferrals := directActiveReferrals.length,
              bonusEligible :=
                decide ((directActiveReferrals.length : Int) ≥ bonusSettings.targetReferrals),
              bonusAmount := bonusSettings.bonusAmount,
              remainingReferrals :=
                max 0 (bonusSettings.targetReferrals - directActiveReferrals.length),
              targetReferrals := bonusSettings.targetReferrals, bonusDisabled := false })
    (Reading.bind (getBonusSettings f db) fun defaultSettings =>
      Reading.pure
        { currentReferrals := 0, bonusEligible := false,
          bonusAmount := defaultSettings.bonusAmount,
          remainingReferrals := defaultSettings.targetReferrals,
          targetReferrals := defaultSettings.targetReferrals, bonusDisabled := false })

/-- A row of the joined query of `getActiveReferralCounts`: `users` is the
embedded object of the referred user, reduced to its one selected column
`account_active`, or `null` when no user has the key `referred_id`. -/
structure JoinedReferral where
  level : Int
  referred_id : UserId
  users : Option Bool
deriving DecidableEq

/-- The query `from('referrals').select('level, referred_id,
users!referrals_referred_id_fkey(account_active)').eq('referrer_id', userId)`. -/
def selectReferralsWithUsers (f : ReadFaults) (db : Db) (userId : UserId) :
    Reading (ReadReply (List JoinedReferral)) :=
  runQuery f (Read.referralsWithUsers userId)
    { data := some ((db.store.referrals.filter (fun e => e.referrer_id = userId)).map fun e =>
        { level := e.level, referred_id := e.referred_id,
          users := (db.store.users.find? (fun u => u.id = e.referred_id)).map
            (fun u => u.account_active) }),
      error := none }

/-- The object `getActiveReferralCounts` returns. -/
structure ReferralCounts where
  level1 : Nat
  level2 : Nat
  level3 : Nat
deriving DecidableEq

/-- The callback of `referralsWithUsers.forEach`, lines 285-311. -/
def countReferral (counts : ReferralCounts) (referral : JoinedReferral) : ReferralCounts :=
  let isActive := decide (referral.users = some true)
  if isActive then
    if referral.level = 1 then { counts with level1 := counts.level1 + 1 }
    else if referral.level = 2 then { counts with level2 := counts.level2 + 1 }
    else if referral.level = 3 then { counts with level3 := counts.level3 + 1 }
    else counts
  else counts

/-- A user id used as a condition: `some u` when it is truthy (present and not 0). -/
def truthyId : Option UserId → Option UserId
  | some u => if u = 0 then none else some u
  | none => none

/-- `getActiveReferralCounts(userId)`, lines 250-320; `userId` is `none` for
`null` or `undefined`. -/
def getActiveReferralCounts (f : ReadFaults) (db : Db) (userId : Option UserId) :
    Reading ReferralCounts :=
  Reading.tryCatch
    (match truthyId userId with
     | none => Reading.pure { level1 := 0, level2 := 0, level3 := 0 }
     | some u =>
       Reading.bind (selectReferralsWithUsers f db u) fun reply =>
         match reply.error with
         | some _ => Reading.pure { level1 := 0, level2 := 0, level3 := 0 }
         | none =>
           match reply.data with
           | none => Reading.pure { level1 := 0, level2 := 0, level3 := 0 }
           | some referralsWithUsers =>
             if referralsWithUsers.length = 0 then
               Reading.pure { level1 := 0, level2 := 0, level3 := 0 }
             else
               Reading.pure
                 (referralsWithUsers.foldl countReferral { level1 := 0, level2 := 0, level3 := 0 }))
    (Reading.pure { level1 := 0, level2 := 0, level3 := 0 })

/-- The value a read computation resolved with, if it resolved. -/
def Outcome.value? {α : Type} : Outcome α → Option α
  | .resolved a _ => some a
  | .rejected _ => none

/-- The number of referral edges of `userId` at `level` whose referred user is
currently active: some row of `users` has the key `referred_id` and
`account_active = true`. -/
def activeEdgeCount (s : Store) (userId : UserId) (level : Int) : Nat :=
  (s.referrals.filter (fun e =>
    decide (e.referrer_id = userId) && decide (e.level = level) &&
      s.users.any (fun v => decide (v.id = e.referred_id) && v.account_active))).length

/-- An active user with the given key and no recruiter. -/
def activeUser (id : UserId) : User :=
  { mkUser id "" none (some 0) with account_active := true }

/-- A level-1 edge from `referrer` to `referred`. -/
def directEdge (referrer referred : UserId) : Referral :=
  { referrer_id := referrer, referred_id := referred, level := 1, commission := 1800, paid := true }

/-- A settings row with the bonus enabled and the given target. -/
def settingsRow (target : Int) : BonusSettingsRow :=
  { welcome_bonus_amount := some 700, referral_target := some target, bonus_enabled := some true,
    affiliation_fee_fcfa := some 4000 }

/-- An example database: user 1 has `n` level-1 edges, to the active users
`100, .., 100 + n - 1`, and the configured target is `target`. -/
def bonusDb (target : Int) (n : Nat) : Db :=
  { store :=
      { users := alice :: (List.range n).map (fun i => activeUser (100 + i)),
        referrals := (List.range n).map (fun i => directEdge 1 (100 + i)) },
    bonus_settings := some [settingsRow target],
    claimed_bonuses := [] }

/-- An example database with the bonus disabled: user 1 has two level-1 edges
to active users and the stored target is 15. -/
def disabledDb : Db :=
  { bonusDb 15 2 with
    bonus_settings := some [{ settingsRow 15 with bonus_enabled := some false }] }

/-- A settings row in which the administrator stored 0 for the three amounts. -/
def zeroRow : BonusSettingsRow :=
  { welcome_bonus_amount := some 0, referral_target := some 0, bonus_enabled := some true,
    affiliation_fee_fcfa := some 0 }

/-- An example database whose settings row is `zeroRow`. -/
def zeroDb : Db := { bonusDb 15 0 with bonus_settings := some [zeroRow] }

/-- A persistence layer on which every query resolves with an internal error. -/
def failing : ReadFaults :=
  fun _ => ReadFault.error { code := some "XX000", message := some "internal error" }

/-- An example database for the per-level counts: user 1 has edges of levels 1,
2, 3 and 4 to active users, a level-1 edge to the inactive BOB and a level-1
edge to user 999, who is no row of `users`. -/
def countsDb : Db :=
  { store :=
      { users := [alice, bob, activeUser 100, activeUser 101],
        referrals :=
          [directEdge 1 100, { directEdge 1 101 with level := 2 }, directEdge 1 2,
           { directEdge 1 100 with level := 4 }, { directEdge 1 101 with level := 3 },
           directEdge 1 999, directEdge 2 100] },
    bonus_settings := some [settingsRow 15],
    claimed_bonuses := [] }

/-- Whether a persistence call is a referral-code lookup. -/
def Op.isSelect : Op → Bool
  | .select _ => true
  | _ => false

/-- Example row of a user who registered with their own referral code. -/
def selfie : User := mkUser 7 "SELF" (some "SELF") (some 0)

/-- An example store with a cycle of length one: SELF refers to itself. -/
def selfStore : Store := { users := [alice, selfie], referrals := [] }

/-- Example row of a user recruited by PONG. -/
def ping : User := mkUser 8 "PING" (some "PONG") (some 0)

/-- Example row of a user recruited by PING. -/
def pong : User := mkUser 9 "PONG" (some "PING") none

/-- An example store with a cycle of length two: PING and PONG refer to each
other. -/
def mutualStore : Store := { users := [ping, pong], referrals := [] }

/-- The sum of the commissions of the edges of `es` that pay the user `id`. -/
def commissionsTo (es : List Referral) (id : UserId) : Int :=
  ((es.filter (fun e => e.referrer_id = id)).map (fun e => e.commission)).sum

/-- The run from `w` to `w'` issued at most `n` referral-code lookups and at
most `m` persistence calls in all. -/
def Logged (n m : Nat) (w w' : World) : Prop :=
  ∃ ops : List Op, w'.log = w.log ++ ops ∧ (ops.filter Op.isSelect).length ≤ n ∧ ops.length ≤ m

/-! ## `claimBonus` (`BonusClaim.jsx`, lines 76-115) -/

/-- A persistence call issued by `claimBonus`. -/
inductive ClaimOp where
  /-- `from('claimed_bonuses').insert(row)` -/
  | insertClaimed (row : ClaimedBonus)
  /-- `from('users').update({welcome_bonus, balance, withdrawable_balance}).eq('id', id)` -/
  | updateUser (id : UserId) (welcome_bonus balance withdrawable_balance : Int)
deriving DecidableEq

/-- The state `claimBonus` runs in: the database and the calls issued so far. -/
structure ClaimWorld where
  db : Db
  log : List ClaimOp
deriving DecidableEq

/-- The effect of a successful
`from('users').update({welcome_bonus, balance, withdrawable_balance}).eq('id', id)`. -/
def Db.updateBonus (db : Db) (id : UserId) (welcome_bonus balance withdrawable_balance : Int) :
    Db :=
  { db with
    store :=
      { db.store with
        users := db.store.users.map (fun u =>
          if u.id = id then
            { u with welcome_bonus := some welcome_bonus, balance := some balance,
                     withdrawable_balance := some withdrawable_balance }
          else u) } }

/-- `claimBonus()`: `bonusInfo` and `bonusClaimed` are the component state (the
record `calculateBonusEligibility` returned, or `null`, and whether a claim was
found), `user` is the user object the component holds.  A failed insert is
thrown and caught, so the update is skipped; what the update resolves with
only drives the display. -/
def claimBonus (f : Faults) (bonusInfo : Option BonusEligibility) (bonusClaimed : Bool)
    (user : Option User) (w : ClaimWorld) : ClaimWorld :=
  match bonusInfo, bonusClaimed, user with
  | some bonusInfo, false, some user =>
    if bonusInfo.bonusEligible = false then w
    else
      let row : ClaimedBonus :=
        { user_id := user.id, type := "welcome", amount := bonusInfo.bonusAmount }
      let log1 := w.log ++ [ClaimOp.insertClaimed row]
      match f w.log.length with
      | .ok =>
        let db1 : Db := { w.db with claimed_bonuses := w.db.claimed_bonuses ++ [row] }
        let newWelcomeBonus := orZero user.welcome_bonus + bonusInfo.bonusAmount
        let newBalance := orZero user.balance + bonusInfo.bonusAmount
        let newWithdrawableBalance := orZero user.withdrawable_balance + bonusInfo.bonusAmount
        let log2 :=
          log1 ++ [ClaimOp.updateUser user.id newWelcomeBonus newBalance newWithdrawableBalance]
        match f log1.length with
        | .ok =>
          { db := db1.updateBonus user.id newWelcomeBonus newBalance newWithdrawableBalance,
            log := log2 }
        | _ => { db := db1, log := log2 }
      | _ => { db := w.db, log := log1 }
  | _, _, _ => w

/-! ## Operators per country (`soleaspayService.js`, `currency.js`) -/

/-- The keys of `COUNTRY_CURRENCIES` (`currency.js`, lines 2-75), each with the
`currency` of its entry. -/
def COUNTRY_CURRENCIES : List (String × String) :=
  [("benin", "XOF"), ("burkina-faso", "XOF"), ("cameroon", "XAF"), ("congo-brazza", "XAF"),
   ("drc-congo", "CDF"), ("cote-ivoire", "XOF"), ("gabon", "XAF"), ("togo", "XOF"),
   ("kenya", "KES"), ("rwanda", "RWF"), ("senegal", "XOF"), ("niger", "XOF")]

/-- The object literal `COUNTRY_OPERATORS` of `getSupportedOperators`. -/
def COUNTRY_OPERATORS : List (String × List String) :=
  [("benin", ["mtn", "moov"]),
   ("burkina_faso", ["moov", "orange"]),
   ("cameroon", ["mtn", "orange"]),
   ("congo_brazzaville", ["mtn", "airtel"]),
   ("congo_kinshasa", ["orange", "vodacom", "airtel"]),
   ("cote_divoire", ["mtn", "wave", "moov", "orange"]),
   ("mali", ["orange", "moov"]),
   ("gabon", ["airtel"]),
   ("togo", ["moov", "tmoney"]),
   ("kenya", ["mpesa"]),
   ("rwanda", ["mtn"]),
   ("senegal", ["free", "wave", "expresso", "wizall", "orange"]),
   ("uganda", ["mtn", "airtel"])]

/-- `getSupportedOperators(countryCode)`:
`COUNTRY_OPERATORS[countryCode] || ['mtn', 'orange']`. -/
def getSupportedOperators (countryCode : String) : List String :=
  match COUNTRY_OPERATORS.lookup countryCode with
  | some operators => operators
  | none => ["mtn", "orange"]

/-- Line 34 of `PaymentPage.jsx`: `user.country_code || 'benin'`. -/
def userCountryCode (country_code : Option String) : String :=
  match truthyCode country_code with
  | some code => code
  | none => "benin"

/-! ## Withdrawals (`Withdrawal.jsx`) -/

/-- A JavaScript number as `parseFloat` can return it; finite values are exact
rationals. -/
inductive JsNumber where
  | nan
  | finite (q : ℚ)
  | posInf
  | negInf
deriving DecidableEq

/-- The function `isNaN`. -/
def JsNumber.isNaN : JsNumber → Bool
  | .nan => true
  | _ => false

/-- The comparison `x <= q` with a finite right side. -/
def JsNumber.le (x : JsNumber) (q : ℚ) : Bool :=
  match x with
  | .nan => false
  | .finite a => decide (a ≤ q)
  | .posInf => false
  | .negInf => true

/-- The comparison `x < q` with a finite right side. -/
def JsNumber.lt (x : JsNumber) (q : ℚ) : Bool :=
  match x with
  | .nan => false
  | .finite a => decide (a < q)
  | .posInf => false
  | .negInf => true

/-- The comparison `x > q` with a finite right side. -/
def JsNumber.gt (x : JsNumber) (q : ℚ) : Bool :=
  match x with
  | .nan => false
  | .finite a => decide (a > q)
  | .posInf => true
  | .negInf => false

/-- The difference `q - x` with a finite left side. -/
def JsNumber.subFrom (q : ℚ) (x : JsNumber) : JsNumber :=
  match x with
  | .nan => .nan
  | .finite a => .finite (q - a)
  | .posInf => .negInf
  | .negInf => .posInf

/-- The sum `q + x` with a finite left side. -/
def JsNumber.addTo (q : ℚ) (x : JsNumber) : JsNumber :=
  match x with
  | .nan => .nan
  | .finite a => .finite (q + a)
  | .posInf => .posInf
  | .negInf => .negInf

/-- The balance a withdrawal form draws on (the prop `balanceType`). -/
inductive BalanceType where
  | main
  | youtube
  | tiktok
deriving DecidableEq

/-- The state `withdrawalData` of a withdrawal form. -/
structure WithdrawalData where
  amount : String
  country : String
  operator : String
  phone : String
deriving DecidableEq

/-- The props of `WithdrawalForm` that the validation and the update read. -/
structure WithdrawalFormProps where
  user : User
  balanceType : BalanceType
  availableBalance : Int
  minWithdrawal : Int

/-- Line 395 of `Withdrawal.jsx`. -/
def minMainWithdrawal : Int := 2500

/-- Line 396 of `Withdrawal.jsx`. -/
def minVideoWithdrawal : Int := 500

/-- Lines 466-474: the props of the three forms the page renders. -/
def withdrawalFormProps (user : User) : BalanceType → WithdrawalFormProps
  | .main =>
    { user := user, balanceType := .main,
      availableBalance := orZero user.withdrawable_balance, minWithdrawal := minMainWithdrawal }
  | .youtube =>
    { user := user, balanceType := .youtube,
      availableBalance := orZero user.youtube_balance, minWithdrawal := minVideoWithdrawal }
  | .tiktok =>
    { user := user, balanceType := .tiktok,
      availableBalance := orZero user.tiktok_balance, minWithdrawal := minVideoWithdrawal }

/-- `validateWithdrawal()`, lines 127-146; `parseFloat` is the JavaScript
function of that name. -/
def validateWithdrawal (parseFloat : String → JsNumber) (props : WithdrawalFormProps)
    (withdrawalData : WithdrawalData) : Bool :=
  let amount := parseFloat withdrawalData.amount
  if withdrawalData.amount = "" ∨ withdrawalData.country = "" ∨ withdrawalData.operator = "" ∨
      withdrawalData.phone = "" then false
  else if (amount.isNaN || amount.le 0) = true then false
  else if amount.lt props.minWithdrawal = true then false
  else if amount.gt props.availableBalance = true then false
  else true

/-- The object `balanceUpdates` of `handleWithdrawal`; a property that was not
set is `none`. -/
structure BalanceUpdates where
  balance : Option JsNumber
  withdrawable_balance : Option JsNumber
  youtube_balance : Option JsNumber
  tiktok_balance : Option JsNumber
  total_withdrawals : Option JsNumber
deriving DecidableEq

/-- Lines 200-208 of `handleWithdrawal`: the update it builds. -/
def balanceUpdates (user : User) (balanceType : BalanceType) (amount : JsNumber) :
    BalanceUpdates :=
  let empty : BalanceUpdates :=
    { balance := none, withdrawable_balance := none, youtube_balance := none,
      tiktok_balance := none, total_withdrawals := none }
  let selected : BalanceUpdates :=
    match balanceType with
    | .main =>
      { empty with
        withdrawable_balance := some (JsNumber.subFrom (orZero user.withdrawable_balance) amount) }
    | .youtube =>
      { empty with youtube_balance := some (JsNumber.subFrom (orZero user.youtube_balance) amount) }
    | .tiktok =>
      { empty with tiktok_balance := some (JsNumber.subFrom (orZero user.tiktok_balance) amount) }
  { selected with
    total_withdrawals := some (JsNumber.addTo (orZero user.total_withdrawals) amount) }

/-- `handleWithdrawal()`, lines 148-232, reduced to the update of the `users`
row it issues, if it issues one: `insertOutcome` is the outcome of the insert
into `withdrawals`.  An error with code `42501` is tolerated, any other error
is thrown and caught. -/
def handleWithdrawal (parseFloat : String → JsNumber) (props : WithdrawalFormProps)
    (withdrawalData : WithdrawalData) (insertOutcome : ReadFault) : Option BalanceUpdates :=
  if validateWithdrawal parseFloat props withdrawalData = false then none
  else
    let amount := parseFloat withdrawalData.amount
    let update := balanceUpdates props.user props.balanceType amount
    match insertOutcome with
    | .ok => some update
    | .error insertError => if insertError.code = some "42501" then some update else none
    | .throws => none

/-! ## Theorems -/

/-! ### Lookups -/

theorem single_cases (rows : List User) :
    single rows = { data := none, error := true } ∨
      ∃ u, rows = [u] ∧ single rows = { data := some u, error := false } := by
  match rows with
  | [] => exact Or.inl rfl
  | [u] => exact Or.inr ⟨u, rfl, rfl⟩
  | _ :: _ :: _ => exact Or.inl rfl

theorem single_map (g : User → User) (rows : List User) :
    single (rows.map g) = { data := (single rows).data.map g, error := (single rows).error } := by
  match rows with
  | [] => rfl
  | [u] => rfl
  | _ :: _ :: _ => rfl

theorem single_of_data {rows : List User} {u : User} (h : (single rows).data = some u) :
    single rows = { data := some u, error := false } := by
  rcases single_cases rows with h0 | ⟨v, -, hv⟩
  · rw [h0] at h; cases h
  · rw [hv] at h ⊢; cases h; rfl

theorem single_of_no_data {rows : List User} (h : (single rows).data = none) :
    single rows = { data := none, error := true } := by
  rcases single_cases rows with h0 | ⟨v, -, hv⟩
  · exact h0
  · rw [hv] at h; cases h

theorem resolve_mem {s : Store} {code : String} {u : User} (h : resolve s code = some u) :
    u ∈ s.users ∧ u.referral_code = code := by
  unfold resolve at h
  rcases single_cases (s.users.filter (fun u => u.referral_code = code)) with h0 | ⟨v, hv, hs⟩
  · rw [h0] at h; cases h
  · rw [hs] at h
    cases h
    have hm : u ∈ s.users.filter (fun u => u.referral_code = code) := by rw [hv]; simp
    simpa using hm

theorem filter_code_map (g : User → User) (hg : ∀ u, (g u).referral_code = u.referral_code)
    (users : List User) (code : String) :
    (users.map g).filter (fun u => u.referral_code = code) =
      (users.filter (fun u => u.referral_code = code)).map g := by
  induction users with
  | nil => rfl
  | cons u us ih =>
    by_cases h : u.referral_code = code
    · simp [List.filter_cons, hg, h, ih]
    · simp [List.filter_cons, hg, h, ih]

theorem resolve_map (g : User → User) (hg : ∀ u, (g u).referral_code = u.referral_code)
    (s : Store) (r : List Referral) (code : String) :
    resolve { users := s.users.map g, referrals := r } code = (resolve s code).map g := by
  unfold resolve
  simp only [filter_code_map g hg, single_map]

theorem ancestorIds_map (g : User → User)
    (hc : ∀ u, (g u).referral_code = u.referral_code)
    (hi : ∀ u, (g u).id = u.id)
    (hr : ∀ u, (g u).referred_by_code = u.referred_by_code)
    (s : Store) (r : List Referral) (n : Nat) (code : Option String) :
    ancestorIds { users := s.users.map g, referrals := r } n code = ancestorIds s n code := by
  induction n generalizing code with
  | zero => rfl
  | succ n ih =>
    unfold ancestorIds
    cases truthyCode code with
    | none => rfl
    | some c =>
      simp only [resolve_map g hc]
      cases resolve s c with
      | none => rfl
      | some u => simp [hi, hr, ih]

/-! ### Credits keep the referral graph -/

theorem creditUser_id (id : UserId) (n : Int) (u : User) : (creditUser id n u).id = u.id := by
  unfold creditUser; split <;> rfl

theorem creditUser_referral_code (id : UserId) (n : Int) (u : User) :
    (creditUser id n u).referral_code = u.referral_code := by
  unfold creditUser; split <;> rfl

theorem creditUser_referred_by_code (id : UserId) (n : Int) (u : User) :
    (creditUser id n u).referred_by_code = u.referred_by_code := by
  unfold creditUser; split <;> rfl

theorem creditChain_id (lvl : Int) (ids : List UserId) (u : User) :
    (creditChain lvl ids u).id = u.id := by
  induction ids generalizing lvl u with
  | nil => rfl
  | cons i is ih => simp [creditChain, ih, creditUser_id]

theorem creditChain_referral_code (lvl : Int) (ids : List UserId) (u : User) :
    (creditChain lvl ids u).referral_code = u.referral_code := by
  induction ids generalizing lvl u with
  | nil => rfl
  | cons i is ih => simp [creditChain, ih, creditUser_referral_code]

theorem creditChain_referred_by_code (lvl : Int) (ids : List UserId) (u : User) :
    (creditChain lvl ids u).referred_by_code = u.referred_by_code := by
  induction ids generalizing lvl u with
  | nil => rfl
  | cons i is ih => simp [creditChain, ih, creditUser_referred_by_code]

/-- On a store whose keys are unique, the update the code issues for a row it
has just read is a credit of that row. -/
theorem updateBalances_eq_credit (users : List User) (r : List Referral)
    (hpk : (users.map User.id).Nodup) (u : User) (hu : u ∈ users) (n : Int) :
    Store.updateBalances { users := users, referrals := r } u.id
        (orZero u.balance + n) (orZero u.withdrawable_balance + n) =
      { users := users.map (creditUser u.id n), referrals := r } := by
  unfold Store.updateBalances
  congr 1
  apply List.map_congr_left
  intro v hv
  by_cases h : v.id = u.id
  · have : v = u := List.inj_on_of_nodup_map hpk hv hu h
    subst this
    simp [creditUser, credit]
  · simp [creditUser, h]

theorem payChain_nil (s : Store) (d : UserId) (lvl : Int) : payChain s d lvl [] = s := by
  cases s
  simp [payChain, edgesFor, creditChain]

theorem payChain_cons (s : Store) (d : UserId) (lvl : Int) (id : UserId) (ids : List UserId) :
    payChain s d lvl (id :: ids) =
      payChain
        { users := s.users.map (creditUser id (calculateCommissions lvl none)),
          referrals := s.referrals ++ edgesFor d lvl [id] }
        d (lvl + 1) ids := by
  simp [payChain, edgesFor, creditChain, List.map_map, Function.comp_def]

/-! ### A run on a reliable persistence layer -/

theorem payLevel3_reliable (d : UserId) (referrerL2 : User) (s : Store) (log : List Op)
    (hpk : (s.users.map User.id).Nodup) :
    (payLevel3 reliable d referrerL2 { store := s, log := log }).world.store =
      payChain s d 3 (ancestorIds s 1 referrerL2.referred_by_code) := by
  unfold payLevel3 ancestorIds
  cases truthyCode referrerL2.referred_by_code with
  | none => simp [Async.pure, Await.world, payChain_nil]
  | some code =>
    simp only [Async.bind, selectByReferralCode, reliable]
    cases h : resolve s code with
    | none =>
      rw [single_of_no_data h]
      simp [Async.pure, Await.world, payChain_nil]
    | some u =>
      rw [single_of_data h]
      simp only [Async.bind, insertReferral, updateBalances, reliable, Await.world,
        Store.insertReferral]
      rw [updateBalances_eq_credit _ _ hpk u (resolve_mem h).1]
      simp [ancestorIds, payChain_cons, payChain_nil, edgesFor]

theorem nodup_ids_creditUser (users : List User) (id : UserId) (n : Int)
    (hpk : (users.map User.id).Nodup) :
    ((users.map (creditUser id n)).map User.id).Nodup := by
  simpa [List.map_map, Function.comp_def, creditUser_id] using hpk

theorem payLevel2_reliable (d : UserId) (referrerL1 : User) (s : Store) (log : List Op)
    (hpk : (s.users.map User.id).Nodup) :
    (payLevel2 reliable d referrerL1 { store := s, log := log }).world.store =
      payChain s d 2 (ancestorIds s 2 referrerL1.referred_by_code) := by
  unfold payLevel2 ancestorIds
  cases truthyCode referrerL1.referred_by_code with
  | none => simp [Async.pure, Await.world, payChain_nil]
  | some code =>
    simp only [Async.bind, selectByReferralCode, reliable]
    cases h : resolve s code with
    | none =>
      rw [single_of_no_data h]
      simp [Async.pure, Await.world, payChain_nil]
    | some u =>
      rw [single_of_data h]
      simp only [Async.bind, insertReferral, updateBalances, reliable, Store.insertReferral]
      rw [updateBalances_eq_credit _ _ hpk u (resolve_mem h).1,
        payLevel3_reliable _ _ _ _ (nodup_ids_creditUser _ _ _ hpk),
        ancestorIds_map _ (creditUser_referral_code _ _) (creditUser_id _ _)
          (creditUser_referred_by_code _ _) s]
      simp [payChain_cons, edgesFor]

theorem tryBlock_reliable (c : String) (hc : c ≠ "") (d : UserId) (s : Store) (log : List Op)
    (hpk : (s.users.map User.id).Nodup) :
    (tryBlock reliable c d { store := s, log := log }).world.store =
      payChain s d 1 (ancestorIds s 3 (some c)) := by
  unfold tryBlock ancestorIds
  simp only [Async.bind, selectByReferralCode, reliable, truthyCode, hc, if_false]
  cases h : resolve s c with
  | none =>
    rw [single_of_no_data h]
    simp [Async.pure, Await.world, payChain_nil]
  | some u =>
    rw [single_of_data h]
    simp only [Async.bind, insertReferral, updateBalances, reliable, Store.insertReferral]
    rw [updateBalances_eq_credit _ _ hpk u (resolve_mem h).1,
      payLevel2_reliable _ _ _ _ (nodup_ids_creditUser _ _ _ hpk),
      ancestorIds_map _ (creditUser_referral_code _ _) (creditUser_id _ _)
        (creditUser_referred_by_code _ _) s]
    simp [payChain_cons, edgesFor]

theorem processReferralCommissions_world (f : Faults) (c : String) (hc : c ≠ "") (d : UserId)
    (w : World) :
    (processReferralCommissions f (some c) d w).world = (tryBlock f c d w).world := by
  unfold processReferralCommissions
  simp only [truthyCode, hc, if_false]
  cases tryBlock f c d w <;> rfl

/-- On a reliable persistence layer and a store with unique keys, one call pays
the (at most three) ancestors the code leads to, in order, from level 1. -/
theorem processReferralCommissions_reliable (c : String) (hc : c ≠ "") (d : UserId) (s : Store)
    (log : List Op) (hpk : (s.users.map User.id).Nodup) :
    (processReferralCommissions reliable (some c) d { store := s, log := log }).world.store =
      payChain s d 1 (ancestorIds s 3 (some c)) := by
  rw [processReferralCommissions_world _ _ hc, tryBlock_reliable c hc d s log hpk]

theorem calc1 : calculateCommissions 1 none = 1800 := rfl
theorem calc2 : calculateCommissions 2 none = 900 := rfl
theorem calc3 : calculateCommissions 3 none = 500 := rfl

/-! ### A run under any failure behaviour -/

theorem ancestorIds_of_users_map {s s1 : Store} (g : User → User) (h : s1.users = s.users.map g)
    (hg : ∀ u, SameProfile u (g u)) (n : Nat) (code : Option String) :
    ancestorIds s1 n code = ancestorIds s n code := by
  cases s1 with
  | mk users1 r1 =>
    simp only at h
    subst h
    exact ancestorIds_map g (fun u => (hg u).2.1) (fun u => (hg u).1) (fun u => (hg u).2.2.1) s r1 n code

theorem sameProfile_refl (u : User) : SameProfile u u :=
  ⟨rfl, rfl, rfl, rfl, rfl, rfl, rfl, rfl⟩

theorem sameProfile_trans {u v w : User} (h1 : SameProfile u v) (h2 : SameProfile v w) :
    SameProfile u w := by
  obtain ⟨a1, a2, a3, a4, a5, a6, a7, a8⟩ := h1
  obtain ⟨b1, b2, b3, b4, b5, b6, b7, b8⟩ := h2
  exact ⟨b1.trans a1, b2.trans a2, b3.trans a3, b4.trans a4, b5.trans a5, b6.trans a6,
    b7.trans a7, b8.trans a8⟩

theorem touchesOnly_id (ids : List UserId) : TouchesOnly ids (fun u => u) :=
  fun u => ⟨sameProfile_refl u, fun _ => rfl⟩

theorem touchesOnly_setBalances (i : UserId) (b wb : Int) :
    TouchesOnly [i] (fun u =>
      if u.id = i then { u with balance := some b, withdrawable_balance := some wb } else u) := by
  intro u
  by_cases h : u.id = i
  · simp [h, SameProfile]
  · simp [h, SameProfile]

theorem paid_refl (d : UserId) (lvl : Int) (ids : List UserId) (s : Store) : Paid d lvl ids s s :=
  ⟨fun u => u, [], by simp, by simp, touchesOnly_id ids, List.nil_sublist _⟩

/-- One level of payout followed by the payouts of the levels above it. -/
theorem paid_step {d : UserId} {lvl : Int} {i : UserId} {ids : List UserId} {s s1 s2 : Store}
    {g1 : User → User} {es1 : List Referral}
    (hu : s1.users = s.users.map g1) (hr : s1.referrals = s.referrals ++ es1)
    (hg1 : TouchesOnly [i] g1)
    (hes1 : es1.Sublist [{ referrer_id := i, referred_id := d, level := lvl,
                           commission := calculateCommissions lvl none, paid := true }])
    (h2 : Paid d (lvl + 1) ids s1 s2) : Paid d lvl (i :: ids) s s2 := by
  obtain ⟨g2, es2, hu2, hr2, hg2, hes2⟩ := h2
  refine ⟨fun u => g2 (g1 u), es1 ++ es2, ?_, ?_, ?_, ?_⟩
  · rw [hu2, hu, List.map_map]; rfl
  · rw [hr2, hr, List.append_assoc]
  · intro u
    refine ⟨sameProfile_trans (hg1 u).1 (hg2 (g1 u)).1, fun hn => ?_⟩
    have h1 : g1 u = u := (hg1 u).2 (by simpa using fun h => hn (by simp [h]))
    have h2 : g2 u = u := (hg2 u).2 (fun h => hn (by simp [h]))
    show g2 (g1 u) = u
    rw [h1, h2]
  · have := List.Sublist.append hes1 hes2
    simpa [edgesFor] using this

/-- The two writes of one level (edge insert, then balance update), under any
failure behaviour: each write happens or not, and the code goes on to `k`
unless one of the two calls rejects. -/
theorem insert_update_then (f : Faults) (e : Referral) (i : UserId) (b wb : Int)
    (k : Async Unit) (w : World) :
    ∃ (g1 : User → User) (es1 : List Referral) (s1 : Store) (log1 : List Op),
      s1.users = w.store.users.map g1 ∧ s1.referrals = w.store.referrals ++ es1 ∧
      TouchesOnly [i] g1 ∧ es1.Sublist [e] ∧
      (((insertReferral f e).bind (fun _ => (updateBalances f i b wb).bind (fun _ => k)) w).world.store
          = s1 ∨
       ((insertReferral f e).bind (fun _ => (updateBalances f i b wb).bind (fun _ => k)) w).world
          = (k { store := s1, log := log1 }).world) := by
  obtain ⟨s, log⟩ := w
  simp only [Async.bind, insertReferral, updateBalances, List.length_append, List.length_singleton]
  cases h1 : f log.length with
  | throws =>
    exact ⟨fun u => u, [], s, log, by simp, by simp, touchesOnly_id _, List.nil_sublist _,
      Or.inl rfl⟩
  | ok =>
    simp only [List.length_append, List.length_singleton]
    cases h2 : f (log.length + 1) with
    | throws =>
      exact ⟨fun u => u, [e], s.insertReferral e, log, by simp [Store.insertReferral], rfl,
        touchesOnly_id _, List.Sublist.refl _, Or.inl rfl⟩
    | ok =>
      exact ⟨_, [e], (s.insertReferral e).updateBalances i b wb, _, rfl, rfl,
        touchesOnly_setBalances i b wb, List.Sublist.refl _, Or.inr rfl⟩
    | error =>
      exact ⟨fun u => u, [e], s.insertReferral e, _, by simp [Store.insertReferral], rfl,
        touchesOnly_id _, List.Sublist.refl _, Or.inr rfl⟩
  | error =>
    simp only [List.length_append, List.length_singleton]
    cases h2 : f (log.length + 1) with
    | throws =>
      exact ⟨fun u => u, [], s, log, by simp, by simp, touchesOnly_id _, List.nil_sublist _,
        Or.inl rfl⟩
    | ok =>
      exact ⟨_, [], s.updateBalances i b wb, _, rfl, by simp [Store.updateBalances],
        touchesOnly_setBalances i b wb, List.nil_sublist _, Or.inr rfl⟩
    | error =>
      exact ⟨fun u => u, [], s, _, by simp, by simp, touchesOnly_id _, List.nil_sublist _,
        Or.inr rfl⟩

/-- One level of the payout under any failure behaviour, given what the
continuation `k` does. -/
theorem paid_level (f : Faults) (d : UserId) (lvl : Int) (i : UserId) (b wb : Int)
    (ids : List UserId) (k : Async Unit) (w : World)
    (hk : ∀ (s1 : Store) (log1 : List Op) (g1 : User → User),
      s1.users = w.store.users.map g1 → TouchesOnly [i] g1 →
      Paid d (lvl + 1) ids s1 (k { store := s1, log := log1 }).world.store) :
    Paid d lvl (i :: ids) w.store
      (((insertReferral f
            { referrer_id := i, referred_id := d, level := lvl,
              commission := calculateCommissions lvl none, paid := true }).bind
          (fun _ => (updateBalances f i b wb).bind (fun _ => k))) w).world.store := by
  obtain ⟨g1, es1, s1, log1, hu, hr, hg1, hes1, hend⟩ :=
    insert_update_then f
      { referrer_id := i, referred_id := d, level := lvl,
        commission := calculateCommissions lvl none, paid := true } i b wb k w
  rcases hend with h | h
  · rw [h]
    exact paid_step hu hr hg1 hes1 (paid_refl _ _ _ _)
  · rw [h]
    exact paid_step hu hr hg1 hes1 (hk s1 log1 g1 hu hg1)

theorem bind_pure_world (x : Async Unit) (y : Async Unit) (w : World) :
    (x.bind (fun _ => y) w).world = (x.bind (fun _ => y.bind (fun _ => Async.pure ())) w).world := by
  simp only [Async.bind]
  cases x w with
  | rejected w1 => rfl
  | resolved a w1 =>
    simp only []
    cases y w1 <;> rfl

theorem payLevel3_paid (f : Faults) (d : UserId) (referrerL2 : User) (w : World) :
    Paid d 3 (ancestorIds w.store 1 referrerL2.referred_by_code) w.store
      (payLevel3 f d referrerL2 w).world.store := by
  unfold payLevel3 ancestorIds
  cases truthyCode referrerL2.referred_by_code with
  | none => exact paid_refl _ _ _ _
  | some code =>
    simp only [Async.bind, selectByReferralCode]
    cases f w.log.length with
    | throws => exact paid_refl _ _ _ _
    | error => exact paid_refl _ _ _ _
    | ok =>
      simp only []
      cases h : resolve w.store code with
      | none =>
        rw [single_of_no_data h]
        exact paid_refl _ _ _ _
      | some u =>
        rw [single_of_data h]
        simp only []
        rw [bind_pure_world]
        exact paid_level f d 3 u.id _ _ [] _ _ (fun s1 log1 g1 _ _ => paid_refl _ _ _ _)

theorem payLevel2_paid (f : Faults) (d : UserId) (referrerL1 : User) (w : World) :
    Paid d 2 (ancestorIds w.store 2 referrerL1.referred_by_code) w.store
      (payLevel2 f d referrerL1 w).world.store := by
  unfold payLevel2 ancestorIds
  cases truthyCode referrerL1.referred_by_code with
  | none => exact paid_refl _ _ _ _
  | some code =>
    simp only [Async.bind, selectByReferralCode]
    cases f w.log.length with
    | throws => exact paid_refl _ _ _ _
    | error => exact paid_refl _ _ _ _
    | ok =>
      simp only []
      cases h : resolve w.store code with
      | none =>
        rw [single_of_no_data h]
        exact paid_refl _ _ _ _
      | some u =>
        rw [single_of_data h]
        simp only []
        refine paid_level f d 2 u.id _ _ _ _ _ (fun s1 log1 g1 hu hg1 => ?_)
        have := payLevel3_paid f d u { store := s1, log := log1 }
        rwa [ancestorIds_of_users_map g1 hu (fun v => (hg1 v).1)] at this

theorem tryBlock_paid (f : Faults) (c : String) (hc : c ≠ "") (d : UserId) (w : World) :
    Paid d 1 (ancestorIds w.store 3 (some c)) w.store (tryBlock f c d w).world.store := by
  unfold tryBlock ancestorIds
  simp only [Async.bind, selectByReferralCode, truthyCode, hc, if_false]
  cases f w.log.length with
  | throws => exact paid_refl _ _ _ _
  | error => exact paid_refl _ _ _ _
  | ok =>
    simp only []
    cases h : resolve w.store c with
    | none =>
      rw [single_of_no_data h]
      exact paid_refl _ _ _ _
    | some u =>
      rw [single_of_data h]
      simp only []
      refine paid_level f d 1 u.id _ _ _ _ _ (fun s1 log1 g1 hu hg1 => ?_)
      have := payLevel2_paid f d u { store := s1, log := log1 }
      rwa [ancestorIds_of_users_map g1 hu (fun v => (hg1 v).1)] at this

/-- Under any failure behaviour, one call only pays users among the (at most
three) ancestors the code leads to: it appends some of their edges, in order,
and writes only their balances. -/
theorem processReferralCommissions_paid (f : Faults) (code : Option String) (d : UserId)
    (w : World) :
    Paid d 1 (ancestorIds w.store 3 code) w.store
      (processReferralCommissions f code d w).world.store := by
  cases h : truthyCode code with
  | none =>
    have : processReferralCommissions f code d w = Await.resolved () w := by
      unfold processReferralCommissions; rw [h]
    rw [this]
    exact paid_refl _ _ _ _
  | some c =>
    have hc : c ≠ "" := by
      cases code with
      | none => simp [truthyCode] at h
      | some c0 =>
        by_cases h0 : c0 = ""
        · simp [truthyCode, h0] at h
        · simp [truthyCode, h0] at h; rw [← h]; exact h0
    have hcode : ancestorIds w.store 3 code = ancestorIds w.store 3 (some c) := by
      unfold ancestorIds
      rw [h]
      simp [truthyCode, hc]
    have hrun : (processReferralCommissions f code d w).world = (tryBlock f c d w).world := by
      unfold processReferralCommissions
      rw [h]
      simp only []
      cases tryBlock f c d w <;> rfl
    rw [hrun, hcode]
    exact tryBlock_paid f c hc d w

/-! ### The chain and its edges -/

theorem ancestorIds_length_le (s : Store) (n : Nat) (code : Option String) :
    (ancestorIds s n code).length ≤ n := by
  induction n generalizing code with
  | zero => simp [ancestorIds]
  | succ n ih =>
    unfold ancestorIds
    cases truthyCode code with
    | none => simp
    | some c =>
      simp only []
      cases resolve s c with
      | none => simp
      | some u => simpa using ih u.referred_by_code

/-- The first `m` ancestors of a longer walk are the walk of length `m`. -/
theorem ancestorIds_take (s : Store) (m n : Nat) (h : m ≤ n) (code : Option String) :
    (ancestorIds s n code).take m = ancestorIds s m code := by
  induction m generalizing n code with
  | zero => simp [ancestorIds]
  | succ m ih =>
    obtain ⟨n', rfl⟩ : ∃ n', n = n' + 1 := ⟨n - 1, by omega⟩
    unfold ancestorIds
    cases truthyCode code with
    | none => simp
    | some c =>
      simp only []
      cases resolve s c with
      | none => simp
      | some u => simpa using ih n' (by omega) u.referred_by_code

theorem edgesFor_length (d : UserId) (lvl : Int) (ids : List UserId) :
    (edgesFor d lvl ids).length = ids.length := by
  induction ids generalizing lvl with
  | nil => rfl
  | cons i is ih => simp [edgesFor, ih]

theorem mem_edgesFor {d : UserId} {lvl : Int} {ids : List UserId} {e : Referral}
    (h : e ∈ edgesFor d lvl ids) :
    e.referrer_id ∈ ids ∧ e.referred_id = d ∧ e.paid = true ∧ lvl ≤ e.level ∧
      e.level < lvl + ids.length ∧ e.commission = calculateCommissions e.level none := by
  induction ids generalizing lvl with
  | nil => simp [edgesFor] at h
  | cons i is ih =>
    simp only [edgesFor, List.mem_cons] at h
    rcases h with h | h
    · subst h
      simp
    · obtain ⟨h1, h2, h3, h4, h5, h6⟩ := ih h
      refine ⟨List.mem_cons_of_mem _ h1, h2, h3, by omega, ?_, h6⟩
      simp only [List.length_cons, Nat.cast_add, Nat.cast_one]
      omega

/-! ### Sequences of calls -/

theorem edgesFor_keys_nodup (d : UserId) (lvl : Int) (ids : List UserId) :
    ((edgesFor d lvl ids).map edgeKey).Nodup := by
  induction ids generalizing lvl with
  | nil => simp [edgesFor]
  | cons i is ih =>
    simp only [edgesFor, List.map_cons, List.nodup_cons]
    refine ⟨?_, ih (lvl + 1)⟩
    intro hmem
    obtain ⟨e, he, hk⟩ := List.mem_map.1 hmem
    have hl := (mem_edgesFor he).2.2.2.1
    have : e.level = lvl := by
      simp only [edgeKey, Prod.mk.injEq] at hk
      exact hk.2.2
    omega

/-- One call keeps the edge keys distinct when the new user has no edge yet. -/
theorem processReferralCommissions_keys_nodup (f : Faults) (code : Option String) (d : UserId)
    (w : World) (hnd : (w.store.referrals.map edgeKey).Nodup)
    (hfresh : ∀ e ∈ w.store.referrals, e.referred_id ≠ d) :
    ((processReferralCommissions f code d w).world.store.referrals.map edgeKey).Nodup ∧
    ∀ e ∈ (processReferralCommissions f code d w).world.store.referrals,
      e ∈ w.store.referrals ∨ e.referred_id = d := by
  obtain ⟨g, es, -, hr, -, hes⟩ := processReferralCommissions_paid f code d w
  rw [hr]
  constructor
  · rw [List.map_append, List.nodup_append]
    refine ⟨hnd, (edgesFor_keys_nodup d 1 _).sublist (hes.map edgeKey), ?_⟩
    intro k hk1 hk2
    obtain ⟨e1, he1, rfl⟩ := List.mem_map.1 hk1
    obtain ⟨e2, he2, hk⟩ := List.mem_map.1 hk2
    have h2 := (mem_edgesFor (hes.subset he2)).2.1
    simp only [edgeKey, Prod.mk.injEq] at hk
    exact hfresh e1 he1 (by rw [← hk.2.1, h2])
  · intro e he
    rcases List.mem_append.1 he with h | h
    · exact Or.inl h
    · exact Or.inr (mem_edgesFor (hes.subset h)).2.1

theorem runCalls_keys_nodup (f : Faults) (calls : List (Option String × UserId)) (w : World)
    (hnd : (w.store.referrals.map edgeKey).Nodup)
    (hfresh : ∀ e ∈ w.store.referrals, e.referred_id ∉ calls.map Prod.snd)
    (hcalls : (calls.map Prod.snd).Nodup) :
    ((runCalls f calls w).store.referrals.map edgeKey).Nodup := by
  induction calls generalizing w with
  | nil => exact hnd
  | cons call rest ih =>
    obtain ⟨code, d⟩ := call
    simp only [List.map_cons, List.nodup_cons] at hcalls
    have hstep := processReferralCommissions_keys_nodup f code d w hnd
      (fun e he hd => hfresh e he (by simp [hd]))
    unfold runCalls
    apply ih _ hstep.1 _ hcalls.2
    intro e he
    rcases hstep.2 e he with h | h
    · intro hin
      exact hfresh e h (by simp [hin])
    · rw [h]; exact hcalls.1

/-! ### Two calls in a row -/

theorem creditChain_not_mem (lvl : Int) (ids : List UserId) (u : User) (h : u.id ∉ ids) :
    creditChain lvl ids u = u := by
  induction ids generalizing lvl with
  | nil => rfl
  | cons i is ih =>
    simp only [List.mem_cons, not_or] at h
    simp [creditChain, creditUser, h.1, ih _ h.2]

/-- With distinct ancestors, the payouts credit the user at position `k` of the
chain with the commission of level `lvl + k`, once. -/
theorem creditChain_nodup (lvl : Int) (ids : List UserId) (hnd : ids.Nodup) (u : User) :
    creditChain lvl ids u =
      if u.id ∈ ids then credit (calculateCommissions (lvl + (ids.indexOf u.id : Nat)) none) u
      else u := by
  induction ids generalizing lvl with
  | nil => simp [creditChain]
  | cons i is ih =>
    simp only [List.nodup_cons] at hnd
    by_cases h : u.id = i
    · have hcu : creditUser i (calculateCommissions lvl none) u =
          credit (calculateCommissions lvl none) u := by simp [creditUser, h]
      have hnot : (credit (calculateCommissions lvl none) u).id ∉ is := by
        show u.id ∉ is
        rw [h]; exact hnd.1
      simp [creditChain, hcu, creditChain_not_mem _ _ _ hnot, h]
    · have hcu : creditUser i (calculateCommissions lvl none) u = u := by simp [creditUser, h]
      have hi : ¬ i = u.id := fun e => h e.symm
      rw [creditChain, hcu, ih (lvl + 1) hnd.2]
      by_cases hm : u.id ∈ is
      · simp only [hm, if_true, List.mem_cons, h, false_or]
        rw [List.indexOf_cons_ne _ hi]
        congr 2
        push_cast
        ring
      · simp [hm, h]

theorem credit_credit (n m : Int) (u : User) : credit n (credit m u) = credit (m + n) u := by
  simp [credit, orZero, add_assoc]

theorem nodup_ids_creditChain (users : List User) (lvl : Int) (ids : List UserId)
    (hpk : (users.map User.id).Nodup) :
    ((users.map (creditChain lvl ids)).map User.id).Nodup := by
  simpa [List.map_map, Function.comp_def, creditChain_id] using hpk

/-- The `try` block itself can reject: here the first lookup throws.  Only the
`catch` clause of `processReferralCommissions` turns this into a normal return. -/
theorem tryBlock_rejects_when_lookup_throws (c : String) (d : UserId) (w : World) :
    tryBlock (fun _ => Fault.throws) c d w =
      Await.rejected { w with log := w.log ++ [Op.select c] } := rfl

/-- Example: DAVE's code leads to four ancestors; DAVE, CAROL and BOB are paid
for the new user 9 and ALICE, the fourth, is not. -/
theorem fourth_ancestor_not_paid_example :
    ancestorIds demoStore 4 (some "DAVE") = [4, 3, 2, 1] ∧
    (processReferralCommissions reliable (some "DAVE") 9
        { store := demoStore, log := [] }).world.store =
      { users := [alice, credit 500 bob, credit 900 carol, credit 1800 dave],
        referrals :=
          [{ referrer_id := 4, referred_id := 9, level := 1, commission := 1800, paid := true },
           { referrer_id := 3, referred_id := 9, level := 2, commission := 900, paid := true },
           { referrer_id := 2, referred_id := 9, level := 3, commission := 500, paid := true }] } := by
  decide

/-! ### The claims -/

/-- C1: on a store with unique keys where the referral code `c` resolves to
`C`, `C.referred_by_code` resolves to `B` and `B.referred_by_code` resolves to
`A`, with `A`, `B`, `C` pairwise distinct, and every persistence call succeeds,
`processReferralCommissions(c, d)` appends exactly the three edges
`(C, d, 1, 1800)`, `(B, d, 2, 900)`, `(A, d, 3, 500)`, all with `paid = true`,
and adds 1800 to `balance` and `withdrawable_balance` of `C`, 900 to those of
`B`, 500 to those of `A` (a `null` balance counting as 0); no other row
changes. -/
theorem processReferralCommissions_three_levels (s : Store) (log : List Op) (c cB cA : String)
    (d : UserId) (A B C : User)
    (hpk : (s.users.map User.id).Nodup)
    (hc : c ≠ "") (hC : resolve s c = some C)
    (hCB : C.referred_by_code = some cB) (hcB : cB ≠ "") (hB : resolve s cB = some B)
    (hBA : B.referred_by_code = some cA) (hcA : cA ≠ "") (hA : resolve s cA = some A)
    (hAB : A ≠ B) (hAC : A ≠ C) (hBC : B ≠ C) :
    (processReferralCommissions reliable (some c) d { store := s, log := log }).world.store =
      { users := s.users.map (fun u =>
          if u = C then credit 1800 u else if u = B then credit 900 u
          else if u = A then credit 500 u else u),
        referrals := s.referrals ++
          [{ referrer_id := C.id, referred_id := d, level := 1, commission := 1800, paid := true },
           { referrer_id := B.id, referred_id := d, level := 2, commission := 900, paid := true },
           { referrer_id := A.id, referred_id := d, level := 3, commission := 500, paid := true }] } := by
  have hids : ancestorIds s 3 (some c) = [C.id, B.id, A.id] := by
    simp [ancestorIds, truthyCode, hc, hC, hCB, hcB, hB, hBA, hcA, hA]
  rw [processReferralCommissions_reliable c hc d s log hpk, hids]
  have key : ∀ u ∈ s.users, ∀ v ∈ s.users, u.id = v.id ↔ u = v := fun u hu v hv =>
    ⟨fun h => List.inj_on_of_nodup_map hpk hu hv h, fun h => by rw [h]⟩
  have mC := (resolve_mem hC).1
  have mB := (resolve_mem hB).1
  have mA := (resolve_mem hA).1
  simp only [payChain, edgesFor, creditChain, calc1, calc2, calc3]
  congr 1
  apply List.map_congr_left
  intro u hu
  by_cases h1 : u = C
  · subst h1
    have hb : ¬ u.id = B.id := fun h => hBC ((key u hu B mB).1 h).symm
    have ha : ¬ u.id = A.id := fun h => hAC ((key u hu A mA).1 h).symm
    simp [creditUser, credit, hb, ha, calc1]
  · have h1' : ¬ u.id = C.id := fun h => h1 ((key u hu C mC).1 h)
    by_cases h2 : u = B
    · subst h2
      have ha : ¬ u.id = A.id := fun h => hAB ((key u hu A mA).1 h).symm
      simp [creditUser, credit, h1, h1', ha, calc2]
    · have h2' : ¬ u.id = B.id := fun h => h2 ((key u hu B mB).1 h)
      by_cases h3 : u = A
      · subst h3
        simp [creditUser, h1, h2, h1', h2', calc3]
      · have h3' : ¬ u.id = A.id := fun h => h3 ((key u hu A mA).1 h)
        simp [creditUser, h1, h2, h3, h1', h2', h3']

/-- Witness of C1: a new user 9 registered with CAROL's code on the example
store; CAROL, BOB and ALICE are paid 1800, 900 and 500, DAVE nothing. -/
theorem processReferralCommissions_three_levels_witness :
    (processReferralCommissions reliable (some "CAROL") 9
        { store := demoStore, log := [] }).world.store =
      { users := [credit 500 alice, credit 900 bob, credit 1800 carol, dave],
        referrals :=
          [{ referrer_id := 3, referred_id := 9, level := 1, commission := 1800, paid := true },
           { referrer_id := 2, referred_id := 9, level := 2, commission := 900, paid := true },
           { referrer_id := 1, referred_id := 9, level := 3, commission := 500, paid := true }] } := by
  rw [processReferralCommissions_three_levels demoStore [] "CAROL" "BOB" "ALICE" 9 alice bob carol
    (by decide) (by decide) (by decide) (by decide) (by decide) (by decide) (by decide)
    (by decide) (by decide) (by decide) (by decide) (by decide)]
  decide

/-- C2: for a non-empty referral code that is the `referral_code` of no user,
or whose lookup resolves with an error (because `.single()` finds several rows,
or because the persistence layer fails), `processReferralCommissions(c, d)`
resolves normally after the one lookup and leaves the store as it was: no edge
is inserted and no balance is written. -/
theorem processReferralCommissions_unknown_code (f : Faults) (s : Store) (log : List Op)
    (c : String) (newUserId : UserId) (hc : c ≠ "")
    (h : (∀ u ∈ s.users, u.referral_code ≠ c) ∨ resolve s c = none ∨
      f log.length = Fault.error) :
    processReferralCommissions f (some c) newUserId { store := s, log := log } =
      Await.resolved () { store := s, log := log ++ [Op.select c] } := by
  have hnil : (∀ u ∈ s.users, u.referral_code ≠ c) → resolve s c = none := by
    intro hno
    have : s.users.filter (fun u => u.referral_code = c) = [] := by
      simpa [List.filter_eq_nil_iff] using hno
    simp [resolve, this, single]
  unfold processReferralCommissions
  simp only [truthyCode, hc, if_false, tryBlock, Async.bind, selectByReferralCode]
  rcases h with hno | hnone | herr
  · cases hf : f log.length <;> simp [single_of_no_data (hnil hno), Async.pure]
  · cases hf : f log.length <;> simp [single_of_no_data hnone, Async.pure]
  · simp [herr, Async.pure]

/-- Witness of C2: the code `GHOST` belongs to no user of the example store. -/
theorem processReferralCommissions_unknown_code_witness :
    ("GHOST" ≠ "" ∧ ∀ u ∈ demoStore.users, u.referral_code ≠ "GHOST") ∧
    processReferralCommissions reliable (some "GHOST") 9 { store := demoStore, log := [] } =
      Await.resolved () { store := demoStore, log := [] ++ [Op.select "GHOST"] } :=
  ⟨⟨by decide, by decide⟩,
    processReferralCommissions_unknown_code reliable demoStore [] "GHOST" 9 (by decide)
      (Or.inl (by decide))⟩

/-- C3: when the referral code `c` resolves to a user `L1` whose
`referred_by_code` is absent (`null` or empty), `processReferralCommissions(c, d)`
on a working persistence layer appends exactly one edge, `(L1, d, 1, 1800)`
with `paid = true`, and none of level 2 or 3: after the level-1 insert and
update it issues no further call. -/
theorem processReferralCommissions_one_level (s : Store) (log : List Op) (c : String)
    (d : UserId) (L1 : User) (hc : c ≠ "") (hL1 : resolve s c = some L1)
    (hno : L1.referred_by_code = none ∨ L1.referred_by_code = some "") :
    (processReferralCommissions reliable (some c) d { store := s, log := log }).world.store.referrals
      = s.referrals ++
          [{ referrer_id := L1.id, referred_id := d, level := 1, commission := 1800, paid := true }] ∧
    (processReferralCommissions reliable (some c) d { store := s, log := log }).world.log
      = log ++
          [Op.select c,
           Op.insert
            { referrer_id := L1.id, referred_id := d, level := 1, commission := 1800, paid := true },
           Op.update L1.id (orZero L1.balance + 1800) (orZero L1.withdrawable_balance + 1800)] := by
  have ht : truthyCode L1.referred_by_code = none := by
    rcases hno with h | h <;> simp [h, truthyCode]
  rw [processReferralCommissions_world _ _ hc]
  unfold tryBlock payLevel2
  simp only [Async.bind, selectByReferralCode, reliable]
  rw [single_of_data hL1]
  simp [Async.bind, insertReferral, updateBalances, reliable, ht, Async.pure, Await.world,
    Store.insertReferral, Store.updateBalances, calc1]

/-- Witness of C3: ALICE, who was recruited by nobody, is the only one paid. -/
theorem processReferralCommissions_one_level_witness :
    (processReferralCommissions reliable (some "ALICE") 9
        { store := demoStore, log := [] }).world.store.referrals
      = demoStore.referrals ++
          [{ referrer_id := alice.id, referred_id := 9, level := 1, commission := 1800,
             paid := true }] :=
  (processReferralCommissions_one_level demoStore [] "ALICE" 9 alice (by decide) (by decide)
    (Or.inl (by decide))).1

/-- C4: with an empty or absent `referrerCode` (`""`, `null`, `undefined`)
`processReferralCommissions` returns at once: no persistence call is issued
(the log is unchanged) and the store is unchanged, under every behaviour of the
persistence layer. -/
theorem processReferralCommissions_no_code (f : Faults) (newUserId : UserId) (w : World) :
    processReferralCommissions f none newUserId w = Await.resolved () w ∧
    processReferralCommissions f (some "") newUserId w = Await.resolved () w := by
  constructor <;> rfl

/-- C5: whatever the store, the arguments and the failure behaviour of the
persistence layer (calls that resolve with an error or reject at any step),
`processReferralCommissions` resolves normally: nothing propagates to the
caller. -/
theorem processReferralCommissions_never_rejects (f : Faults) (referrerCode : Option String)
    (newUserId : UserId) (w : World) :
    ∃ w', processReferralCommissions f referrerCode newUserId w = Await.resolved () w' := by
  unfold processReferralCommissions
  split
  · exact ⟨_, rfl⟩
  · split <;> exact ⟨_, rfl⟩

/-- C6: when the referral code `c` resolves to `L1` and `L1.referred_by_code` is
present but resolves to no user, `processReferralCommissions(c, d)` on a
working persistence layer and a store with unique keys pays level 1 in full
(the edge `(L1, d, 1, 1800)` and 1800 more on `balance` and
`withdrawable_balance` of `L1`), inserts no level-2 edge, and stops after the
failed level-2 lookup: no level-3 lookup or payout is attempted. -/
theorem processReferralCommissions_dangling_level2 (s : Store) (log : List Op) (c c2 : String)
    (d : UserId) (L1 : User) (hpk : (s.users.map User.id).Nodup)
    (hc : c ≠ "") (hL1 : resolve s c = some L1)
    (h2 : L1.referred_by_code = some c2) (hc2 : c2 ≠ "") (hnone : resolve s c2 = none) :
    processReferralCommissions reliable (some c) d { store := s, log := log } =
      Await.resolved ()
        { store :=
            { users := s.users.map (creditUser L1.id 1800),
              referrals := s.referrals ++
                [{ referrer_id := L1.id, referred_id := d, level := 1, commission := 1800,
                   paid := true }] },
          log := log ++
            [Op.select c,
             Op.insert
              { referrer_id := L1.id, referred_id := d, level := 1, commission := 1800,
                paid := true },
             Op.update L1.id (orZero L1.balance + 1800) (orZero L1.withdrawable_balance + 1800),
             Op.select c2] } := by
  have ht : truthyCode L1.referred_by_code = some c2 := by simp [h2, truthyCode, hc2]
  have hs : single ((s.users.map (creditUser L1.id 1800)).filter
      (fun u => u.referral_code = c2)) = { data := none, error := true } := by
    apply single_of_no_data
    have h0 := hnone
    unfold resolve at h0
    rw [filter_code_map _ (creditUser_referral_code _ _), single_map, h0]
    rfl
  unfold processReferralCommissions
  simp only [truthyCode, hc, if_false]
  unfold tryBlock payLevel2
  simp only [ht, Async.bind, selectByReferralCode, reliable]
  rw [single_of_data hL1]
  simp only [Async.bind, insertReferral, updateBalances, reliable, Store.insertReferral, calc1,
    selectByReferralCode]
  rw [updateBalances_eq_credit _ _ hpk L1 (resolve_mem hL1).1]
  simp only [ht, Async.bind, selectByReferralCode, reliable, hs]
  simp [Async.pure]

/-- Witness of C6: ERIN was recruited with the code `NOBODY`, which no user has. -/
theorem processReferralCommissions_dangling_level2_witness :
    (processReferralCommissions reliable (some "ERIN") 9
        { store := danglingStore, log := [] }).world.store =
      { users := [alice, credit 1800 erin],
        referrals :=
          [{ referrer_id := 5, referred_id := 9, level := 1, commission := 1800, paid := true }] } := by
  rw [processReferralCommissions_dangling_level2 danglingStore [] "ERIN" "NOBODY" 9 erin
    (by decide) (by decide) (by decide) (by decide) (by decide) (by decide)]
  decide

/-- C7: under every failure behaviour and for a chain of ancestors of any
length `n`, one call of `processReferralCommissions` appends at most three
edges, each of level 1, 2 or 3, and a fourth or later ancestor (one that is not
also among the first three) gets no edge and keeps its row unchanged. -/
theorem processReferralCommissions_at_most_three (f : Faults) (code : Option String)
    (d : UserId) (w : World) :
    ∃ (g : User → User) (es : List Referral),
      (processReferralCommissions f code d w).world.store.users = w.store.users.map g ∧
      (processReferralCommissions f code d w).world.store.referrals = w.store.referrals ++ es ∧
      es.length ≤ 3 ∧
      (∀ e ∈ es, e.level = 1 ∨ e.level = 2 ∨ e.level = 3) ∧
      ∀ (n : Nat) (i : UserId), i ∈ (ancestorIds w.store n code).drop 3 →
        i ∉ (ancestorIds w.store n code).take 3 →
        (∀ e ∈ es, e.referrer_id ≠ i) ∧ ∀ u : User, u.id = i → g u = u := by
  obtain ⟨g, es, hu, hr, hg, hes⟩ := processReferralCommissions_paid f code d w
  have hlen : (ancestorIds w.store 3 code).length ≤ 3 := ancestorIds_length_le _ _ _
  refine ⟨g, es, hu, hr, ?_, ?_, ?_⟩
  · have := hes.length_le
    rw [edgesFor_length] at this
    omega
  · intro e he
    obtain ⟨-, -, -, h4, h5, -⟩ := mem_edgesFor (hes.subset he)
    have : ((ancestorIds w.store 3 code).length : Int) ≤ 3 := by exact_mod_cast hlen
    omega
  · intro n i hdrop hnot
    have hn : 3 ≤ n := by
      by_contra hlt
      have : (ancestorIds w.store n code).length ≤ n := ancestorIds_length_le _ _ _
      have hnil : (ancestorIds w.store n code).drop 3 = [] := by
        apply List.drop_eq_nil_of_le
        omega
      rw [hnil] at hdrop
      simp at hdrop
    rw [ancestorIds_take _ _ _ hn] at hnot
    refine ⟨fun e he hi => hnot ?_, fun u hui => (hg u).2 (by rw [hui]; exact hnot)⟩
    rw [← hi]
    exact (mem_edgesFor (hes.subset he)).1

/-- C8: on a store with unique keys where the referral code `c` leads to a chain
of `k` distinct ancestors (`k` is 1, 2 or 3; the statement also covers `k = 0`),
and every persistence call succeeds, two calls `processReferralCommissions(c, d)`
in a row append `2k` edges, the edges of the chain twice, and credit the
ancestor of each level with twice that level's commission on `balance` and
`withdrawable_balance`: the second call is not absorbed. -/
theorem processReferralCommissions_twice (s : Store) (log : List Op) (c : String) (d : UserId)
    (hpk : (s.users.map User.id).Nodup) (hc : c ≠ "")
    (hnd : (ancestorIds s 3 (some c)).Nodup) :
    (runCalls reliable [(some c, d), (some c, d)] { store := s, log := log }).store.referrals =
      s.referrals ++ edgesFor d 1 (ancestorIds s 3 (some c))
        ++ edgesFor d 1 (ancestorIds s 3 (some c)) ∧
    ((runCalls reliable [(some c, d), (some c, d)] { store := s, log := log }).store.referrals).length =
      s.referrals.length + 2 * (ancestorIds s 3 (some c)).length ∧
    (runCalls reliable [(some c, d), (some c, d)] { store := s, log := log }).store.users =
      s.users.map (fun u =>
        if u.id ∈ ancestorIds s 3 (some c) then
          credit (2 * calculateCommissions (1 + ((ancestorIds s 3 (some c)).indexOf u.id : Nat)) none) u
        else u) := by
  have h1 := processReferralCommissions_reliable c hc d s log hpk
  have hpk1 : ((payChain s d 1 (ancestorIds s 3 (some c))).users.map User.id).Nodup :=
    nodup_ids_creditChain _ _ _ hpk
  have hids : ancestorIds (payChain s d 1 (ancestorIds s 3 (some c))) 3 (some c) =
      ancestorIds s 3 (some c) :=
    ancestorIds_map _ (creditChain_referral_code _ _) (creditChain_id _ _)
      (creditChain_referred_by_code _ _) s _ 3 (some c)
  have h2 : (runCalls reliable [(some c, d), (some c, d)] { store := s, log := log }).store =
      payChain (payChain s d 1 (ancestorIds s 3 (some c))) d 1 (ancestorIds s 3 (some c)) := by
    simp only [runCalls]
    have := processReferralCommissions_reliable c hc d
      (processReferralCommissions reliable (some c) d { store := s, log := log }).world.store
      (processReferralCommissions reliable (some c) d { store := s, log := log }).world.log
      (by rw [h1]; exact hpk1)
    rw [this, h1, hids]
  rw [h2]
  refine ⟨by simp [payChain], by simp [payChain, edgesFor_length]; omega, ?_⟩
  simp only [payChain, List.map_map]
  apply List.map_congr_left
  intro u _
  simp only [Function.comp_apply]
  rw [creditChain_nodup 1 _ hnd u]
  by_cases hm : u.id ∈ ancestorIds s 3 (some c)
  · simp only [hm, if_true]
    rw [creditChain_nodup 1 _ hnd]
    have : (credit (calculateCommissions (1 + ((ancestorIds s 3 (some c)).indexOf u.id : Nat)) none)
        u).id = u.id := rfl
    simp only [this, hm, if_true, credit_credit]
    congr 1
    ring
  · simp only [hm, if_false]
    exact creditChain_not_mem _ _ _ hm

/-- Witness of C8: two calls with CAROL's code for the new user 9 on the example
store credit CAROL 3600, BOB 1800 and ALICE 1000, and leave DAVE alone. -/
theorem processReferralCommissions_twice_witness :
    (runCalls reliable [(some "CAROL", 9), (some "CAROL", 9)]
        { store := demoStore, log := [] }).store.users =
      [credit 1000 alice, credit 1800 bob, credit 3600 carol, dave] := by
  rw [(processReferralCommissions_twice demoStore [] "CAROL" 9 (by decide) (by decide)
    (by decide)).2.2]
  decide

/-- C9, as amended: starting from a store with no referral edge, after any
sequence of `processReferralCommissions` calls whose `newUserId` arguments are
pairwise distinct, under every failure behaviour, no two referral edges share
the same `(referrer_id, referred_id, level)`. -/
theorem runCalls_distinct_new_users_keys_nodup (f : Faults)
    (calls : List (Option String × UserId)) (w : World)
    (hempty : w.store.referrals = []) (hcalls : (calls.map Prod.snd).Nodup) :
    ((runCalls f calls w).store.referrals.map edgeKey).Nodup := by
  apply runCalls_keys_nodup f calls w _ _ hcalls
  · rw [hempty]; exact List.nodup_nil
  · rw [hempty]; intro e he; cases he

/-- Witness of the amended C9: two new users registered with CAROL's code. -/
theorem runCalls_distinct_new_users_keys_nodup_witness :
    ((runCalls reliable [(some "CAROL", 8), (some "CAROL", 9)]
        { store := demoStore, log := [] }).store.referrals.map edgeKey).Nodup :=
  runCalls_distinct_new_users_keys_nodup reliable [(some "CAROL", 8), (some "CAROL", 9)]
    { store := demoStore, log := [] } (by decide) (by decide)

/-- Counterexample to C9 as stated: the example store has no referral edge, and
after the two calls the application makes for one new user (at registration and
again at activation, same code, same user) the level-1 edge `(3, 9, 1)` of CAROL
is in the table twice. -/
theorem duplicate_edge_after_two_calls :
    demoStore.referrals = [] ∧
    ¬ ((runCalls reliable [(some "CAROL", 9), (some "CAROL", 9)]
        { store := demoStore, log := [] }).store.referrals.map edgeKey).Nodup := by
  decide

/-- C10: `calculateCommissions(level, amount)` is 1800 for level 1, 900 for
level 2, 500 for level 3 and 0 for every other (numeric) level, whatever
`amount` is, given or omitted. -/
theorem calculateCommissions_schedule (level : Int) (amount : Option Int) :
    calculateCommissions level amount =
      if level = 1 then 1800 else if level = 2 then 900 else if level = 3 then 500 else 0 := by
  unfold calculateCommissions commissions
  by_cases h1 : level = 1
  · subst h1; rfl
  · by_cases h2 : level = 2
    · subst h2; rfl
    · by_cases h3 : level = 3
      · subst h3; rfl
      · have e1 : (level == 1) = false := by simpa using h1
        have e2 : (level == 2) = false := by simpa using h2
        have e3 : (level == 3) = false := by simpa using h3
        simp [List.lookup, e1, e2, e3, h1, h2, h3, orZero]

/-! ### Reading the settings -/

/-- What `getBonusSettings` makes of a settings row that was read. -/
theorem getBonusSettings_row (f : ReadFaults) (db : Db) (log : List Read)
    (row : BonusSettingsRow) (rest : List BonusSettingsRow)
    (hok : f log.length = ReadFault.ok) (hrow : db.bonus_settings = some (row :: rest)) :
    getBonusSettings f db log =
      Outcome.resolved
        { bonusAmount := orDefault row.welcome_bonus_amount 700,
          targetReferrals := orDefault row.referral_target 15,
          bonusEnabled := decide (row.bonus_enabled ≠ some false),
          affiliationFeeFcfa := orDefault row.affiliation_fee_fcfa 4000 }
        (log ++ [Read.bonusSettings]) := by
  simp [getBonusSettings, Reading.tryCatch, Reading.bind, selectBonusSettings, runQuery, hok,
    hrow, Reading.pure]

/-- When the settings read fails in any way, `getBonusSettings` resolves with
the defaults. -/
theorem getBonusSettings_failed (f : ReadFaults) (db : Db) (log : List Read)
    (h : (∃ e, f log.length = ReadFault.error e) ∨ f log.length = ReadFault.throws ∨
      db.bonus_settings = none ∨ db.bonus_settings = some []) :
    getBonusSettings f db log = Outcome.resolved defaultSettings (log ++ [Read.bonusSettings]) := by
  unfold getBonusSettings
  simp only [Reading.tryCatch, Reading.bind, selectBonusSettings, runQuery]
  cases hf : f log.length with
  | throws => rfl
  | error e => dsimp only; split_ifs <;> rfl
  | ok =>
    rcases h with ⟨e, he⟩ | he | hnone | hnil
    · rw [hf] at he; cases he
    · rw [hf] at he; cases he
    · rw [hnone]; dsimp only; split_ifs <;> rfl
    · rw [hnil]; dsimp only; split_ifs <;> rfl

/-- The function `getBonusSettings` always resolves, after exactly one query. -/
theorem getBonusSettings_resolves (f : ReadFaults) (db : Db) (log : List Read) :
    ∃ settings, getBonusSettings f db log =
      Outcome.resolved settings (log ++ [Read.bonusSettings]) := by
  cases hf : f log.length with
  | throws => exact ⟨_, getBonusSettings_failed f db log (Or.inr (Or.inl hf))⟩
  | error e => exact ⟨_, getBonusSettings_failed f db log (Or.inl ⟨e, hf⟩)⟩
  | ok =>
    cases hb : db.bonus_settings with
    | none => exact ⟨_, getBonusSettings_failed f db log (Or.inr (Or.inr (Or.inl hb)))⟩
    | some rows =>
      cases rows with
      | nil => exact ⟨_, getBonusSettings_failed f db log (Or.inr (Or.inr (Or.inr hb)))⟩
      | cons row rest => exact ⟨_, getBonusSettings_row f db log row rest hf hb⟩

/-- The settings read depends on the `bonus_settings` table only. -/
theorem getBonusSettings_congr (f : ReadFaults) (db1 db2 : Db)
    (h : db1.bonus_settings = db2.bonus_settings) :
    getBonusSettings f db1 = getBonusSettings f db2 := by
  unfold getBonusSettings selectBonusSettings
  rw [h]

/-! ### Reading the referrals -/

/-- Every object the loop of `getUserReferralsManual` builds carries the user
under the name `referred_user`; none has a property `referredUser`. -/
theorem enrichReferrals_no_referredUser (f : ReadFaults) (db : Db) (referrals : List Referral)
    (acc : List EnrichedReferral) (log : List Read)
    (hacc : ∀ r ∈ acc, r.prop "referredUser" = none) :
    ∀ l log', enrichReferrals f db referrals acc log = Outcome.resolved l log' →
      ∀ r ∈ l, r.prop "referredUser" = none := by
  induction referrals generalizing acc log with
  | nil =>
    intro l log' h r hr
    simp only [enrichReferrals, Reading.pure, Outcome.resolved.injEq] at h
    rw [← h.1] at hr
    exact hacc r hr
  | cons e rest ih =>
    intro l log' h
    have hstep : ∀ v : ReferredUser, ∀ r ∈ acc ++ [{ row := e, added := [("referred_user", v)] }],
        r.prop "referredUser" = none := by
      intro v r hr
      rcases List.mem_append.1 hr with h1 | h1
      · exact hacc r h1
      · simp only [List.mem_singleton] at h1
        subst h1
        rfl
    simp only [enrichReferrals, Reading.bind, selectUserById, runQuery] at h
    cases hf : f log.length with
    | throws => rw [hf] at h; cases h
    | error err =>
      rw [hf] at h
      exact ih _ _ (hstep _) l log' h
    | ok =>
      rw [hf] at h
      dsimp only at h
      generalize List.filter _ db.store.users = rows at h
      match rows, h with
      | [], h => exact ih _ _ (hstep _) l log' h
      | [u], h => exact ih _ _ (hstep _) l log' h
      | _ :: _ :: _, h => exact ih _ _ (hstep _) l log' h

/-- The function `getUserReferrals` always resolves, and no element of its
result has a property `referredUser`. -/
theorem getUserReferrals_no_referredUser (f : ReadFaults) (db : Db) (userId : UserId)
    (log : List Read) :
    ∃ l log', getUserReferrals f db userId log = Outcome.resolved l log' ∧
      ∀ r ∈ l, r.prop "referredUser" = none := by
  have hnil : ∀ r ∈ ([] : List EnrichedReferral), r.prop "referredUser" = none := by
    intro r hr; cases hr
  unfold getUserReferrals getUserReferralsManual
  simp only [Reading.tryCatch, Reading.bind, selectReferralsOf, runQuery, Reading.pure]
  cases hf : f log.length with
  | throws => exact ⟨[], _, rfl, hnil⟩
  | error e => exact ⟨[], _, rfl, hnil⟩
  | ok =>
    dsimp only
    cases hrun : enrichReferrals f db
        (db.store.referrals.filter (fun e => e.referrer_id = userId)).reverse []
        (log ++ [Read.referralsOf userId]) with
    | rejected log' => exact ⟨[], _, rfl, hnil⟩
    | resolved l log' =>
      exact ⟨l, log', rfl, enrichReferrals_no_referredUser f db _ [] _ hnil l log' hrun⟩

theorem filter_isDirectActive_eq_nil (l : List EnrichedReferral)
    (h : ∀ r ∈ l, r.prop "referredUser" = none) : l.filter isDirectActive = [] := by
  rw [List.filter_eq_nil_iff]
  intro r hr
  simp [isDirectActive, h r hr]

/-- What `calculateBonusEligibility` returns, in terms of the settings it read:
the count of direct active referrals is always 0. -/
theorem calculateBonusEligibility_eq (f : ReadFaults) (db : Db) (userId : UserId)
    (log : List Read) (settings : BonusSettings)
    (hs : getBonusSettings f db log = Outcome.resolved settings (log ++ [Read.bonusSettings])) :
    ∃ log', calculateBonusEligibility f db userId log =
      Outcome.resolved
        (if settings.bonusEnabled = false then
          { currentReferrals := 0, bonusEligible := false, bonusAmount := settings.bonusAmount,
            remainingReferrals := settings.targetReferrals,
            targetReferrals := settings.targetReferrals, bonusDisabled := true }
         else
          { currentReferrals := 0, bonusEligible := decide ((0 : Int) ≥ settings.targetReferrals),
            bonusAmount := settings.bonusAmount,
            remainingReferrals := max 0 settings.targetReferrals,
            targetReferrals := settings.targetReferrals, bonusDisabled := false })
        log' := by
  unfold calculateBonusEligibility
  simp only [Reading.tryCatch, Reading.bind, hs]
  cases hen : settings.bonusEnabled with
  | false => exact ⟨log ++ [Read.bonusSettings], by simp [Reading.pure]⟩
  | true =>
    obtain ⟨l, log', hl, hno⟩ :=
      getUserReferrals_no_referredUser f db userId (log ++ [Read.bonusSettings])
    refine ⟨log', ?_⟩
    simp [Reading.pure, Reading.bind, hl, filter_isDirectActive_eq_nil l hno]

/-- The referral reads depend on the `users` and `referrals` tables only. -/
theorem enrichReferrals_congr (f : ReadFaults) (db1 db2 : Db) (h : db1.store = db2.store)
    (referrals : List Referral) (acc : List EnrichedReferral) :
    enrichReferrals f db1 referrals acc = enrichReferrals f db2 referrals acc := by
  induction referrals generalizing acc with
  | nil => rfl
  | cons e rest ih =>
    unfold enrichReferrals selectUserById
    rw [h]
    simp only [ih]

theorem getUserReferrals_congr (f : ReadFaults) (db1 db2 : Db) (h : db1.store = db2.store)
    (userId : UserId) : getUserReferrals f db1 userId = getUserReferrals f db2 userId := by
  unfold getUserReferrals getUserReferralsManual selectReferralsOf
  rw [h]
  simp only [enrichReferrals_congr f db1 db2 h]

/-! ### Counting active referrals per level -/

/-- With unique keys, the embedded user of the joined query is active exactly
when some row with that key is active. -/
theorem find_active_iff (users : List User) (hpk : (users.map User.id).Nodup) (x : UserId) :
    ((users.find? (fun u => u.id = x)).map (fun u => u.account_active) = some true) ↔
      users.any (fun v => decide (v.id = x) && v.account_active) = true := by
  induction users with
  | nil => simp
  | cons v vs ih =>
    simp only [List.map_cons, List.nodup_cons] at hpk
    by_cases hv : v.id = x
    · have hrest : vs.any (fun w => decide (w.id = x) && w.account_active) = false := by
        rw [List.any_eq_false]
        intro w hw
        have : w.id ≠ x := fun h => hpk.1 (by rw [hv, ← h]; exact List.mem_map_of_mem _ hw)
        simp [this]
      simp [List.find?_cons, hv, hrest]
    · have := ih hpk.2
      simp only [List.find?_cons, hv, decide_False, List.any_cons, Bool.false_and, Bool.false_or]
      exact this

/-- The loop over the joined rows adds, per level 1, 2, 3, the number of edges
of `u` at that level whose referred user is active. -/
theorem foldl_countReferral (users : List User) (hpk : (users.map User.id).Nodup) (u : UserId)
    (es : List Referral) (acc : ReferralCounts) :
    ((es.filter (fun e => e.referrer_id = u)).map (fun e =>
        ({ level := e.level, referred_id := e.referred_id,
           users := (users.find? (fun w => w.id = e.referred_id)).map
             (fun w => w.account_active) } : JoinedReferral))).foldl countReferral acc =
      { level1 := acc.level1 +
          activeEdgeCount { users := users, referrals := es } u 1,
        level2 := acc.level2 +
          activeEdgeCount { users := users, referrals := es } u 2,
        level3 := acc.level3 +
          activeEdgeCount { users := users, referrals := es } u 3 } := by
  induction es generalizing acc with
  | nil => simp [activeEdgeCount]
  | cons e rest ih =>
    by_cases hu : e.referrer_id = u
    · simp only [List.filter_cons, hu, decide_True, if_true, List.map_cons, List.foldl_cons]
      rw [ih]
      have hact := find_active_iff users hpk e.referred_id
      by_cases ha : users.any (fun v => decide (v.id = e.referred_id) && v.account_active) = true
      · have ha' := hact.2 ha
        by_cases h1 : e.level = 1
        · simp [countReferral, activeEdgeCount, List.filter_cons, hu, ha, ha', h1]
          omega
        · by_cases h2 : e.level = 2
          · simp [countReferral, activeEdgeCount, List.filter_cons, hu, ha, ha', h2]
            omega
          · by_cases h3 : e.level = 3
            · simp [countReferral, activeEdgeCount, List.filter_cons, hu, ha, ha', h3]
              omega
            · simp [countReferral, activeEdgeCount, List.filter_cons, hu, ha, ha', h1, h2, h3]
      · have ha' : ¬ ((users.find? (fun w => w.id = e.referred_id)).map
            (fun w => w.account_active) = some true) := fun h => ha (hact.1 h)
        simp only [Bool.not_eq_true] at ha
        simp [countReferral, activeEdgeCount, List.filter_cons, hu, ha, ha']
    · rw [List.filter_cons_of_neg (by simpa using hu), ih]
      simp [activeEdgeCount, List.filter_cons, hu]


/-! ### The claims on the read side -/

/-- C11, which the code breaks: in the example database user 1 has one level-1
edge to a currently active user, and `getActiveReferralCounts` counts it, but
`calculateBonusEligibility(1)` returns `currentReferrals = 0`: line 225 reads
`r.referredUser`, while `getUserReferralsManual` stored the user under
`referred_user`. -/
theorem calculateBonusEligibility_misses_active_referral :
    activeEdgeCount (bonusDb 1 1).store 1 1 = 1 ∧
    (getActiveReferralCounts dependable (bonusDb 1 1) (some 1) []).value? =
      some { level1 := 1, level2 := 0, level3 := 0 } ∧
    (calculateBonusEligibility dependable (bonusDb 1 1) 1 []).value? =
      some { currentReferrals := 0, bonusEligible := false, bonusAmount := 700,
             remainingReferrals := 1, targetReferrals := 1, bonusDisabled := false } := by
  decide

/-- C12: when the settings read by `calculateBonusEligibility` have the bonus
enabled, the record it returns satisfies
`bonusEligible = (currentReferrals >= targetReferrals)` and
`remainingReferrals = max(0, targetReferrals - currentReferrals)`; in
particular `currentReferrals = targetReferrals` gives `bonusEligible = true`
and `remainingReferrals = 0`. -/
theorem calculateBonusEligibility_fields (f : ReadFaults) (db : Db) (userId : UserId)
    (log : List Read) (settings : BonusSettings)
    (hs : getBonusSettings f db log = Outcome.resolved settings (log ++ [Read.bonusSettings]))
    (hen : settings.bonusEnabled = true) :
    ∃ r log', calculateBonusEligibility f db userId log = Outcome.resolved r log' ∧
      r.bonusDisabled = false ∧
      r.bonusEligible = decide (r.currentReferrals ≥ r.targetReferrals) ∧
      r.remainingReferrals = max 0 (r.targetReferrals - r.currentReferrals) ∧
      (r.currentReferrals = r.targetReferrals →
        r.bonusEligible = true ∧ r.remainingReferrals = 0) := by
  obtain ⟨log', h⟩ := calculateBonusEligibility_eq f db userId log settings hs
  refine ⟨_, log', h, ?_⟩
  simp only [hen, Bool.true_eq_false, if_false, sub_zero, true_and]
  intro heq
  simp [← heq]

/-- Witness of C12: the example database with target 1. -/
theorem calculateBonusEligibility_fields_witness :
    ∃ r log', calculateBonusEligibility dependable (bonusDb 1 1) 1 [] = Outcome.resolved r log' ∧
      r.bonusDisabled = false ∧
      r.bonusEligible = decide (r.currentReferrals ≥ r.targetReferrals) ∧
      r.remainingReferrals = max 0 (r.targetReferrals - r.currentReferrals) ∧
      (r.currentReferrals = r.targetReferrals →
        r.bonusEligible = true ∧ r.remainingReferrals = 0) :=
  calculateBonusEligibility_fields dependable (bonusDb 1 1) 1 []
    { bonusAmount := 700, targetReferrals := 1, bonusEnabled := true, affiliationFeeFcfa := 4000 }
    (by decide) (by decide)

/-- C13, which the code breaks (the defect of C11): with the target 15, a user
with 14 level-1 edges to active users gets `remainingReferrals = 15`, not 1,
and with 15 such edges still gets `bonusEligible = false` and
`remainingReferrals = 15`, not `true` and 0. -/
theorem calculateBonusEligibility_never_reaches_target :
    activeEdgeCount (bonusDb 15 14).store 1 1 = 14 ∧
    (calculateBonusEligibility dependable (bonusDb 15 14) 1 []).value? =
      some { currentReferrals := 0, bonusEligible := false, bonusAmount := 700,
             remainingReferrals := 15, targetReferrals := 15, bonusDisabled := false } ∧
    activeEdgeCount (bonusDb 15 15).store 1 1 = 15 ∧
    (calculateBonusEligibility dependable (bonusDb 15 15) 1 []).value? =
      some { currentReferrals := 0, bonusEligible := false, bonusAmount := 700,
             remainingReferrals := 15, targetReferrals := 15, bonusDisabled := false } := by
  decide

/-- C14: removing an edge from the `referrals` table never changes the record
`calculateBonusEligibility` returns, under every failure behaviour; in
particular a level-1 edge of the user whose referred user is currently
inactive, or is no row of `users`, contributes nothing, whatever that user's
activity was when the edge was created.  (The statement holds for every edge
because, by the defect of C11, the evaluation counts none.) -/
theorem calculateBonusEligibility_edge_removed (f : ReadFaults) (db : Db) (userId : UserId)
    (log : List Read) (pre post : List Referral) (e : Referral) :
    (calculateBonusEligibility f
        { db with store := { db.store with referrals := pre ++ e :: post } } userId log).value? =
      (calculateBonusEligibility f
        { db with store := { db.store with referrals := pre ++ post } } userId log).value? := by
  obtain ⟨settings, hs⟩ := getBonusSettings_resolves f db log
  have hs1 : getBonusSettings f
      { db with store := { db.store with referrals := pre ++ e :: post } } log =
      Outcome.resolved settings (log ++ [Read.bonusSettings]) := by
    rw [← hs]
    exact congrFun (getBonusSettings_congr f _ db rfl) log
  have hs2 : getBonusSettings f
      { db with store := { db.store with referrals := pre ++ post } } log =
      Outcome.resolved settings (log ++ [Read.bonusSettings]) := by
    rw [← hs]
    exact congrFun (getBonusSettings_congr f _ db rfl) log
  obtain ⟨log1, h1⟩ := calculateBonusEligibility_eq f _ userId log settings hs1
  obtain ⟨log2, h2⟩ := calculateBonusEligibility_eq f _ userId log settings hs2
  rw [h1, h2]
  rfl

/-- C15: when the settings row holds `bonus_enabled = false`,
`calculateBonusEligibility` returns `bonusDisabled = true`,
`bonusEligible = false`, `currentReferrals = 0` and
`remainingReferrals = targetReferrals` for every user, and the settings query
is the only query it issues: the referral edges are not read. -/
theorem calculateBonusEligibility_disabled (f : ReadFaults) (db : Db) (userId : UserId)
    (log : List Read) (row : BonusSettingsRow) (rest : List BonusSettingsRow)
    (hok : f log.length = ReadFault.ok) (hrow : db.bonus_settings = some (row :: rest))
    (hdis : row.bonus_enabled = some false) :
    calculateBonusEligibility f db userId log =
      Outcome.resolved
        { currentReferrals := 0, bonusEligible := false,
          bonusAmount := orDefault row.welcome_bonus_amount 700,
          remainingReferrals := orDefault row.referral_target 15,
          targetReferrals := orDefault row.referral_target 15, bonusDisabled := true }
        (log ++ [Read.bonusSettings]) := by
  unfold calculateBonusEligibility
  simp [Reading.tryCatch, Reading.bind, getBonusSettings_row f db log row rest hok hrow, hdis,
    Reading.pure]

/-- Witness of C15: user 1 has two active direct referrals, the bonus is
disabled. -/
theorem calculateBonusEligibility_disabled_witness :
    calculateBonusEligibility dependable disabledDb 1 [] =
      Outcome.resolved
        { currentReferrals := 0, bonusEligible := false, bonusAmount := 700,
          remainingReferrals := 15, targetReferrals := 15, bonusDisabled := true }
        [Read.bonusSettings] :=
  calculateBonusEligibility_disabled dependable disabledDb 1 []
    { settingsRow 15 with bonus_enabled := some false } [] (by decide) (by decide) (by decide)

/-- C16: for every failing outcome of the settings read (a reply with an error
object of any code and message, a rejected promise, a table that does not
exist, a table with no row) `getBonusSettings` resolves with exactly
`{bonusAmount: 700, targetReferrals: 15, bonusEnabled: true,
affiliationFeeFcfa: 4000}`; nothing propagates. -/
theorem getBonusSettings_defaults_on_failure (f : ReadFaults) (db : Db) (log : List Read)
    (h : (∃ e, f log.length = ReadFault.error e) ∨ f log.length = ReadFault.throws ∨
      db.bonus_settings = none ∨ db.bonus_settings = some []) :
    getBonusSettings f db log =
      Outcome.resolved
        { bonusAmount := 700, targetReferrals := 15, bonusEnabled := true,
          affiliationFeeFcfa := 4000 }
        (log ++ [Read.bonusSettings]) :=
  getBonusSettings_failed f db log h

/-- Witness of C16: the settings query resolves with an internal error. -/
theorem getBonusSettings_defaults_on_failure_witness :
    getBonusSettings failing (bonusDb 3 0) [] =
      Outcome.resolved
        { bonusAmount := 700, targetReferrals := 15, bonusEnabled := true,
          affiliationFeeFcfa := 4000 }
        ([] ++ [Read.bonusSettings]) :=
  getBonusSettings_defaults_on_failure failing (bonusDb 3 0) []
    (Or.inl ⟨{ code := some "XX000", message := some "internal error" }, rfl⟩)

/-- C17, as amended: for a settings row read without error, `getBonusSettings`
returns the stored `welcome_bonus_amount`, `referral_target` and
`affiliation_fee_fcfa` when they are present and not 0, and the defaults 700,
15 and 4000 when they are `null` or 0; `bonusEnabled` is `false` exactly when
`bonus_enabled` is `false`. -/
theorem getBonusSettings_row_values (f : ReadFaults) (db : Db) (log : List Read)
    (row : BonusSettingsRow) (rest : List BonusSettingsRow)
    (hok : f log.length = ReadFault.ok) (hrow : db.bonus_settings = some (row :: rest)) :
    ∃ s, getBonusSettings f db log = Outcome.resolved s (log ++ [Read.bonusSettings]) ∧
      (∀ a, row.welcome_bonus_amount = some a → a ≠ 0 → s.bonusAmount = a) ∧
      (row.welcome_bonus_amount = none ∨ row.welcome_bonus_amount = some 0 →
        s.bonusAmount = 700) ∧
      (∀ t, row.referral_target = some t → t ≠ 0 → s.targetReferrals = t) ∧
      (row.referral_target = none ∨ row.referral_target = some 0 → s.targetReferrals = 15) ∧
      (∀ a, row.affiliation_fee_fcfa = some a → a ≠ 0 → s.affiliationFeeFcfa = a) ∧
      (row.affiliation_fee_fcfa = none ∨ row.affiliation_fee_fcfa = some 0 →
        s.affiliationFeeFcfa = 4000) ∧
      (s.bonusEnabled = false ↔ row.bonus_enabled = some false) := by
  refine ⟨_, getBonusSettings_row f db log row rest hok hrow, ?_, ?_, ?_, ?_, ?_, ?_, ?_⟩
  · intro a h ha; simp [orDefault, h, ha]
  · rintro (h | h) <;> simp [orDefault, h]
  · intro a h ha; simp [orDefault, h, ha]
  · rintro (h | h) <;> simp [orDefault, h]
  · intro a h ha; simp [orDefault, h, ha]
  · rintro (h | h) <;> simp [orDefault, h]
  · simp

/-- Witness of the amended C17: the settings row of the example database. -/
theorem getBonusSettings_row_values_witness :
    ∃ s, getBonusSettings dependable (bonusDb 3 0) [] =
        Outcome.resolved s ([] ++ [Read.bonusSettings]) ∧
      s.bonusAmount = 700 ∧ s.targetReferrals = 3 ∧ s.affiliationFeeFcfa = 4000 := by
  obtain ⟨s, hs, h1, -, h2, -, h3, -, -⟩ :=
    getBonusSettings_row_values dependable (bonusDb 3 0) [] (settingsRow 3) [] rfl rfl
  exact ⟨s, hs, h1 700 rfl (by decide), h2 3 rfl (by decide), h3 4000 rfl (by decide)⟩

/-- Counterexample to C17 as stated: the administrator stored 0 as bonus amount,
as referral target and as affiliation fee; the row is read without error and
`getBonusSettings` returns 700, 15 and 4000. -/
theorem getBonusSettings_replaces_stored_zero :
    zeroDb.bonus_settings = some [zeroRow] ∧
    zeroRow.welcome_bonus_amount = some 0 ∧ zeroRow.referral_target = some 0 ∧
    zeroRow.affiliation_fee_fcfa = some 0 ∧
    getBonusSettings dependable zeroDb [] =
      Outcome.resolved
        { bonusAmount := 700, targetReferrals := 15, bonusEnabled := true,
          affiliationFeeFcfa := 4000 }
        [Read.bonusSettings] := by
  decide

/-- C18: in every state of the settings table and under every failure
behaviour, `getAffiliationFee` resolves with the `affiliationFeeFcfa` of what
`getBonusSettings` returns there, never rejects, and gives 4000 whenever the
settings read fails. -/
theorem getAffiliationFee_projects (f : ReadFaults) (db : Db) (log : List Read) :
    ∃ s, getBonusSettings f db log = Outcome.resolved s (log ++ [Read.bonusSettings]) ∧
      getAffiliationFee f db log =
        Outcome.resolved s.affiliationFeeFcfa (log ++ [Read.bonusSettings]) ∧
      (((∃ e, f log.length = ReadFault.error e) ∨ f log.length = ReadFault.throws ∨
          db.bonus_settings = none ∨ db.bonus_settings = some []) →
        getAffiliationFee f db log = Outcome.resolved 4000 (log ++ [Read.bonusSettings])) := by
  obtain ⟨s, hs⟩ := getBonusSettings_resolves f db log
  have hfee : getAffiliationFee f db log =
      Outcome.resolved s.affiliationFeeFcfa (log ++ [Read.bonusSettings]) := by
    simp [getAffiliationFee, Reading.tryCatch, Reading.bind, hs, Reading.pure]
  refine ⟨s, hs, hfee, fun h => ?_⟩
  rw [hfee]
  have := getBonusSettings_failed f db log h
  rw [hs] at this
  simp only [Outcome.resolved.injEq, and_true] at this
  rw [this]
  rfl

/-- C19: `getActiveReferralCounts` returns `{level1: 0, level2: 0, level3: 0}`
for a missing user id (`null`, `undefined` or 0, no query issued) and when the
edge query fails; for a non-empty user id `u` whose query succeeds, on a store
with unique keys, it returns for each `N` in 1, 2, 3 as `levelN` the number of
edges with `referrer_id = u` and `level = N` whose referred user is active, so
that an edge of any other level is counted nowhere. -/
theorem getActiveReferralCounts_counts (f : ReadFaults) (db : Db) (log : List Read) :
    (getActiveReferralCounts f db none log =
        Outcome.resolved { level1 := 0, level2 := 0, level3 := 0 } log ∧
     getActiveReferralCounts f db (some 0) log =
        Outcome.resolved { level1 := 0, level2 := 0, level3 := 0 } log) ∧
    (∀ u : UserId, u ≠ 0 → f log.length ≠ ReadFault.ok →
      getActiveReferralCounts f db (some u) log =
        Outcome.resolved { level1 := 0, level2 := 0, level3 := 0 }
          (log ++ [Read.referralsWithUsers u])) ∧
    (∀ u : UserId, u ≠ 0 → f log.length = ReadFault.ok →
      (db.store.users.map User.id).Nodup →
      getActiveReferralCounts f db (some u) log =
        Outcome.resolved
          { level1 := activeEdgeCount db.store u 1, level2 := activeEdgeCount db.store u 2,
            level3 := activeEdgeCount db.store u 3 }
          (log ++ [Read.referralsWithUsers u])) := by
  refine ⟨⟨rfl, rfl⟩, ?_, ?_⟩
  · intro u hu hf
    unfold getActiveReferralCounts
    simp only [truthyId, hu, if_false, Reading.tryCatch, Reading.bind, selectReferralsWithUsers,
      runQuery]
    cases hfl : f log.length with
    | ok => exact absurd hfl hf
    | error e => rfl
    | throws => rfl
  · intro u hu hf hpk
    unfold getActiveReferralCounts
    simp only [truthyId, hu, if_false, Reading.tryCatch, Reading.bind, selectReferralsWithUsers,
      runQuery, hf, Reading.pure]
    have hfold := foldl_countReferral db.store.users hpk u db.store.referrals
      { level1 := 0, level2 := 0, level3 := 0 }
    simp only [Nat.zero_add] at hfold
    split_ifs with hlen
    · have hnil : (db.store.referrals.filter (fun e => e.referrer_id = u)).map (fun e =>
          ({ level := e.level, referred_id := e.referred_id,
             users := (db.store.users.find? (fun w => w.id = e.referred_id)).map
               (fun w => w.account_active) } : JoinedReferral)) = [] :=
        List.length_eq_zero.1 hlen
      rw [hnil] at hfold
      simp only [List.foldl_nil] at hfold
      rw [hfold]
      rfl
    · rw [hfold]
      rfl

/-- Witness of C19: in the example database user 1 has one counted edge per
level; the level-4 edge, the edge to an inactive user and the edge to a missing
user are counted nowhere. -/
theorem getActiveReferralCounts_counts_witness :
    getActiveReferralCounts dependable countsDb (some 1) [] =
      Outcome.resolved { level1 := 1, level2 := 1, level3 := 1 } [Read.referralsWithUsers 1] := by
  rw [(getActiveReferralCounts_counts dependable countsDb []).2.2 1 (by decide) rfl (by decide)]
  decide

/-- C20: two databases that differ only in the `claimed_bonuses` table give the
same outcome of `calculateBonusEligibility` for every user, under every
failure behaviour: the evaluator never reads whether the bonus was claimed. -/
theorem calculateBonusEligibility_ignores_claims (f : ReadFaults) (db1 db2 : Db)
    (userId : UserId) (log : List Read)
    (hstore : db1.store = db2.store) (hsettings : db1.bonus_settings = db2.bonus_settings) :
    calculateBonusEligibility f db1 userId log = calculateBonusEligibility f db2 userId log := by
  unfold calculateBonusEligibility
  rw [getBonusSettings_congr f db1 db2 hsettings, getUserReferrals_congr f db1 db2 hstore]

/-- Witness of C20: the example database before and after user 1 claimed the
welcome bonus. -/
theorem calculateBonusEligibility_ignores_claims_witness :
    calculateBonusEligibility dependable (bonusDb 1 1) 1 [] =
      calculateBonusEligibility dependable
        { bonusDb 1 1 with
          claimed_bonuses := [{ user_id := 1, type := "welcome", amount := 700 }] } 1 [] :=
  calculateBonusEligibility_ignores_claims dependable (bonusDb 1 1)
    { bonusDb 1 1 with claimed_bonuses := [{ user_id := 1, type := "welcome", amount := 700 }] }
    1 [] rfl rfl

/-! ### Frame of one call -/

/-- C21: under every failure behaviour, `processReferralCommissions` only
appends to the `referrals` table: the table afterwards is the table before,
every row unchanged and in place, followed by the new rows, and every new row
has `referred_id = newUserId` and `paid = true`. -/
theorem processReferralCommissions_appends (f : Faults) (code : Option String)
    (newUserId : UserId) (w : World) :
    ∃ es : List Referral,
      (processReferralCommissions f code newUserId w).world.store.referrals =
        w.store.referrals ++ es ∧
      ∀ e ∈ es, e.referred_id = newUserId ∧ e.paid = true := by
  obtain ⟨g, es, -, hr, -, hes⟩ := processReferralCommissions_paid f code newUserId w
  refine ⟨es, hr, fun e he => ?_⟩
  have := mem_edgesFor (hes.subset he)
  exact ⟨this.2.1, this.2.2.1⟩

/-- C23, as amended: under every failure behaviour, `processReferralCommissions`
writes only `balance` and `withdrawable_balance`, and only on rows whose key is
the key of one of the at most three ancestors the code leads to: every row
keeps its other columns, every row of another user is unchanged, and so is the
row of the new user unless the new user is one of those ancestors. -/
theorem processReferralCommissions_writes_balances_only (f : Faults) (code : Option String)
    (newUserId : UserId) (w : World) :
    (ancestorIds w.store 3 code).length ≤ 3 ∧
    ∃ g : User → User,
      (processReferralCommissions f code newUserId w).world.store.users = w.store.users.map g ∧
      (∀ u : User, (g u).id = u.id ∧ (g u).referral_code = u.referral_code ∧
        (g u).referred_by_code = u.referred_by_code ∧
        (g u).account_active = u.account_active ∧
        (g u).youtube_balance = u.youtube_balance ∧ (g u).tiktok_balance = u.tiktok_balance ∧
        (g u).welcome_bonus = u.welcome_bonus ∧
        (g u).total_withdrawals = u.total_withdrawals) ∧
      (∀ u : User, u.id ∉ ancestorIds w.store 3 code → g u = u) ∧
      (newUserId ∉ ancestorIds w.store 3 code → ∀ u : User, u.id = newUserId → g u = u) := by
  obtain ⟨g, es, hu, -, hg, -⟩ := processReferralCommissions_paid f code newUserId w
  refine ⟨ancestorIds_length_le _ _ _, g, hu, fun u => (hg u).1, fun u => (hg u).2, ?_⟩
  intro hd u hud
  exact (hg u).2 (by rw [hud]; exact hd)

/-- Counterexample to C23 as stated: user 7 registered with their own referral
code `SELF`; the call made for this new user pays the new user at all three
levels, so the row of the new user is changed. -/
theorem new_user_row_changed_by_own_code :
    selfie ∈ selfStore.users ∧ selfie.id = 7 ∧
    (processReferralCommissions reliable (some "SELF") 7
        { store := selfStore, log := [] }).world.store.users =
      [alice, { selfie with balance := some 3200, withdrawable_balance := some 3200 }] := by
  decide

/-! ### Balances and inserted edges -/

theorem orZero_creditUser_balance (i : UserId) (n : Int) (u : User) :
    orZero (creditUser i n u).balance = orZero u.balance + (if u.id = i then n else 0) ∧
    orZero (creditUser i n u).withdrawable_balance =
      orZero u.withdrawable_balance + (if u.id = i then n else 0) := by
  unfold creditUser
  split_ifs <;> simp [credit, orZero]

/-- The payouts to `ids` raise both balances of a row by the commissions of the
edges that name the row's user as referrer. -/
theorem creditChain_balance (d : UserId) (lvl : Int) (ids : List UserId) (u : User) :
    orZero (creditChain lvl ids u).balance =
      orZero u.balance + commissionsTo (edgesFor d lvl ids) u.id ∧
    orZero (creditChain lvl ids u).withdrawable_balance =
      orZero u.withdrawable_balance + commissionsTo (edgesFor d lvl ids) u.id := by
  induction ids generalizing lvl u with
  | nil => simp [creditChain, edgesFor, commissionsTo]
  | cons i is ih =>
    have h1 := orZero_creditUser_balance i (calculateCommissions lvl none) u
    have h2 := ih (lvl + 1) (creditUser i (calculateCommissions lvl none) u)
    rw [creditUser_id] at h2
    simp only [creditChain]
    rw [h2.1, h2.2, h1.1, h1.2]
    by_cases hi : u.id = i
    · subst hi
      simp [commissionsTo, edgesFor, List.filter_cons]
      constructor <;> ring
    · have hi' : ¬ i = u.id := fun h => hi h.symm
      simp [commissionsTo, edgesFor, List.filter_cons, hi, hi']

theorem edgesFor_commission_sum_le (d : UserId) (ids : List UserId) (h : ids.length ≤ 3) :
    ((edgesFor d 1 ids).map (fun e => e.commission)).sum ≤ 3200 := by
  match ids, h with
  | [], _ => simp [edgesFor]
  | [a], _ => simp [edgesFor, calc1]
  | [a, b], _ => simp [edgesFor, calc1, calc2]
  | [a, b, c], _ => simp [edgesFor, calc1, calc2, calc3]
  | _ :: _ :: _ :: _ :: _, h => simp at h

/-- C27: on a store with unique keys, ancestors distinct or not, when every
persistence call succeeds, one call `processReferralCommissions(c, d)` appends
edges `es` and leaves every row with `balance` and `withdrawable_balance`
raised by exactly the sum of the commissions of the edges of `es` that have
the row's user as referrer (a `null` balance counting as 0); the commissions
of `es` add up to at most 3200. -/
theorem processReferralCommissions_balances_match_edges (s : Store) (log : List Op) (c : String)
    (d : UserId) (hpk : (s.users.map User.id).Nodup) (hc : c ≠ "") :
    ∃ (g : User → User) (es : List Referral),
      (processReferralCommissions reliable (some c) d { store := s, log := log }).world.store =
        { users := s.users.map g, referrals := s.referrals ++ es } ∧
      (∀ u : User, (g u).id = u.id ∧
        orZero (g u).balance = orZero u.balance + commissionsTo es u.id ∧
        orZero (g u).withdrawable_balance =
          orZero u.withdrawable_balance + commissionsTo es u.id) ∧
      (es.map (fun e => e.commission)).sum ≤ 3200 := by
  refine ⟨creditChain 1 (ancestorIds s 3 (some c)), edgesFor d 1 (ancestorIds s 3 (some c)),
    ?_, fun u => ⟨creditChain_id _ _ _, creditChain_balance d 1 _ u⟩,
    edgesFor_commission_sum_le d _ (ancestorIds_length_le _ _ _)⟩
  rw [processReferralCommissions_reliable c hc d s log hpk]
  rfl

/-- Witness of C27: the user who refers to themselves is paid at all three
levels and ends 3200 higher on both balances. -/
theorem processReferralCommissions_balances_match_edges_witness :
    ∃ (g : User → User) (es : List Referral),
      (processReferralCommissions reliable (some "SELF") 5
          { store := selfStore, log := [] }).world.store =
        { users := selfStore.users.map g, referrals := selfStore.referrals ++ es } ∧
      (∀ u : User, (g u).id = u.id ∧
        orZero (g u).balance = orZero u.balance + commissionsTo es u.id ∧
        orZero (g u).withdrawable_balance =
          orZero u.withdrawable_balance + commissionsTo es u.id) ∧
      (es.map (fun e => e.commission)).sum ≤ 3200 :=
  processReferralCommissions_balances_match_edges selfStore [] "SELF" 5 (by decide) (by decide)

/-- Example for C27: the rows after the call for the self-referring user. -/
theorem self_referring_user_gains_3200_example :
    (processReferralCommissions reliable (some "SELF") 5
        { store := selfStore, log := [] }).world.store =
      { users := [alice, { selfie with balance := some 3200, withdrawable_balance := some 3200 }],
        referrals :=
          [{ referrer_id := 7, referred_id := 5, level := 1, commission := 1800, paid := true },
           { referrer_id := 7, referred_id := 5, level := 2, commission := 900, paid := true },
           { referrer_id := 7, referred_id := 5, level := 3, commission := 500, paid := true }] } := by
  decide
/-! ### The calls one run issues -/

theorem logged_refl (n m : Nat) (w : World) : Logged n m w w :=
  ⟨[], by simp, by simp, by simp⟩

/-- One more lookup in front of a run. -/
theorem logged_after_select {n m : Nat} {s : Store} {log : List Op} {c : String} {w' : World}
    (h : Logged n m { store := s, log := log ++ [Op.select c] } w') :
    Logged (n + 1) (m + 1) { store := s, log := log } w' := by
  obtain ⟨ops, h1, h2, h3⟩ := h
  refine ⟨Op.select c :: ops, by simpa using h1, ?_, by simp; omega⟩
  simp [List.filter_cons, Op.isSelect]
  omega

/-- The two writes of one level issue no lookup, whatever fails. -/
theorem insert_update_then_log (f : Faults) (e : Referral) (i : UserId) (b wb : Int)
    (k : Async Unit) (w : World) :
    ∃ (s1 : Store) (ops1 : List Op),
      ops1.filter Op.isSelect = [] ∧ ops1.length ≤ 2 ∧
      (((insertReferral f e).bind (fun _ => (updateBalances f i b wb).bind (fun _ => k)) w).world.log
          = w.log ++ ops1 ∨
       ((insertReferral f e).bind (fun _ => (updateBalances f i b wb).bind (fun _ => k)) w).world
          = (k { store := s1, log := w.log ++ ops1 }).world) := by
  obtain ⟨s, log⟩ := w
  simp only [Async.bind, insertReferral, updateBalances, List.length_append, List.length_singleton]
  cases h1 : f log.length with
  | throws => exact ⟨s, [Op.insert e], rfl, by simp, Or.inl rfl⟩
  | ok =>
    simp only [List.length_append, List.length_singleton]
    cases h2 : f (log.length + 1) with
    | throws =>
      exact ⟨s, [Op.insert e, Op.update i b wb], rfl, by simp, Or.inl (by simp [Await.world])⟩
    | ok =>
      exact ⟨(s.insertReferral e).updateBalances i b wb, [Op.insert e, Op.update i b wb], rfl,
        by simp, Or.inr (by simp)⟩
    | error =>
      exact ⟨s.insertReferral e, [Op.insert e, Op.update i b wb], rfl, by simp,
        Or.inr (by simp)⟩
  | error =>
    simp only [List.length_append, List.length_singleton]
    cases h2 : f (log.length + 1) with
    | throws =>
      exact ⟨s, [Op.insert e, Op.update i b wb], rfl, by simp, Or.inl (by simp [Await.world])⟩
    | ok =>
      exact ⟨s.updateBalances i b wb, [Op.insert e, Op.update i b wb], rfl, by simp,
        Or.inr (by simp)⟩
    | error =>
      exact ⟨s, [Op.insert e, Op.update i b wb], rfl, by simp, Or.inr (by simp)⟩

/-- One level of the payout, given the calls of its continuation. -/
theorem logged_level (f : Faults) (e : Referral) (i : UserId) (b wb : Int) (k : Async Unit)
    (w : World) (n m : Nat)
    (hk : ∀ (s1 : Store) (log1 : List Op),
      Logged n m { store := s1, log := log1 } (k { store := s1, log := log1 }).world) :
    Logged n (m + 2) w
      ((insertReferral f e).bind (fun _ => (updateBalances f i b wb).bind (fun _ => k)) w).world := by
  obtain ⟨s1, ops1, hsel, hlen, hend⟩ := insert_update_then_log f e i b wb k w
  rcases hend with h | h
  · exact ⟨ops1, h, by simp [hsel], by omega⟩
  · rw [h]
    obtain ⟨ops, h1, h2, h3⟩ := hk s1 (w.log ++ ops1)
    refine ⟨ops1 ++ ops, by simpa [List.append_assoc] using h1, ?_, by simp; omega⟩
    simp [List.filter_append, hsel]
    exact h2

theorem payLevel3_logged (f : Faults) (d : UserId) (referrerL2 : User) (w : World) :
    Logged 1 3 w (payLevel3 f d referrerL2 w).world := by
  obtain ⟨s, log⟩ := w
  unfold payLevel3
  cases truthyCode referrerL2.referred_by_code with
  | none => exact logged_refl _ _ _
  | some code =>
    apply logged_after_select
    simp only [Async.bind, selectByReferralCode]
    cases f log.length with
    | throws => exact logged_refl _ _ _
    | error => exact logged_refl _ _ _
    | ok =>
      simp only []
      cases h : resolve s code with
      | none =>
        rw [single_of_no_data h]
        exact logged_refl _ _ _
      | some u =>
        rw [single_of_data h]
        simp only []
        rw [bind_pure_world]
        exact logged_level f _ _ _ _ _ _ 0 0 (fun s1 log1 => logged_refl _ _ _)

theorem payLevel2_logged (f : Faults) (d : UserId) (referrerL1 : User) (w : World) :
    Logged 2 6 w (payLevel2 f d referrerL1 w).world := by
  obtain ⟨s, log⟩ := w
  unfold payLevel2
  cases truthyCode referrerL1.referred_by_code with
  | none => exact logged_refl _ _ _
  | some code =>
    apply logged_after_select
    simp only [Async.bind, selectByReferralCode]
    cases f log.length with
    | throws => exact logged_refl _ _ _
    | error => exact logged_refl _ _ _
    | ok =>
      simp only []
      cases h : resolve s code with
      | none =>
        rw [single_of_no_data h]
        exact logged_refl _ _ _
      | some u =>
        rw [single_of_data h]
        simp only []
        exact logged_level f _ _ _ _ _ _ 1 3 (fun s1 log1 => payLevel3_logged f d u _)

theorem tryBlock_logged (f : Faults) (c : String) (d : UserId) (w : World) :
    Logged 3 9 w (tryBlock f c d w).world := by
  obtain ⟨s, log⟩ := w
  unfold tryBlock
  apply logged_after_select
  simp only [Async.bind, selectByReferralCode]
  cases f log.length with
  | throws => exact logged_refl _ _ _
  | error => exact logged_refl _ _ _
  | ok =>
    simp only []
    cases h : resolve s c with
    | none =>
      rw [single_of_no_data h]
      exact logged_refl _ _ _
    | some u =>
      rw [single_of_data h]
      simp only []
      exact logged_level f _ _ _ _ _ _ 2 6 (fun s1 log1 => payLevel2_logged f d u _)

/-- Under any failure behaviour and on any store, one call issues at most three
lookups and at most nine persistence calls. -/
theorem processReferralCommissions_logged (f : Faults) (code : Option String) (d : UserId)
    (w : World) : Logged 3 9 w (processReferralCommissions f code d w).world := by
  unfold processReferralCommissions
  cases truthyCode code with
  | none => exact logged_refl _ _ _
  | some c =>
    simp only []
    have := tryBlock_logged f c d w
    cases h : tryBlock f c d w with
    | resolved v w' => rw [h] at this; exact this
    | rejected w' => rw [h] at this; exact this

/-- C22: on every store, with or without a cycle in the `referred_by_code`
links, and under every failure behaviour, one call of
`processReferralCommissions` ends after at most three referral-code lookups
(and at most nine persistence calls); for a user `U` whose `referred_by_code`
is `U`'s own referral code, on a store with unique keys and a working
persistence layer, it inserts exactly the three edges with referrer `U` and
levels 1, 2, 3. -/
theorem processReferralCommissions_bounded_on_cycles (f : Faults) (code : Option String)
    (d : UserId) (w : World) :
    (∃ ops : List Op,
      (processReferralCommissions f code d w).world.log = w.log ++ ops ∧
      (ops.filter Op.isSelect).length ≤ 3 ∧ ops.length ≤ 9) ∧
    (∀ (c : String) (U : User), (w.store.users.map User.id).Nodup → c ≠ "" →
      resolve w.store c = some U → U.referred_by_code = some c →
      (processReferralCommissions reliable (some c) d w).world.store.referrals =
        w.store.referrals ++
          [{ referrer_id := U.id, referred_id := d, level := 1, commission := 1800, paid := true },
           { referrer_id := U.id, referred_id := d, level := 2, commission := 900, paid := true },
           { referrer_id := U.id, referred_id := d, level := 3, commission := 500, paid := true }]) := by
  refine ⟨processReferralCommissions_logged f code d w, ?_⟩
  intro c U hpk hc hU hself
  have hids : ancestorIds w.store 3 (some c) = [U.id, U.id, U.id] := by
    simp [ancestorIds, truthyCode, hc, hU, hself]
  rw [processReferralCommissions_reliable c hc d w.store w.log hpk, hids]
  simp [payChain, edgesFor, calc1, calc2, calc3]

/-- Witness of C22: the user who registered with their own code `SELF`. -/
theorem processReferralCommissions_bounded_on_cycles_witness :
    (processReferralCommissions reliable (some "SELF") 5
        { store := selfStore, log := [] }).world.store.referrals =
      selfStore.referrals ++
        [{ referrer_id := selfie.id, referred_id := 5, level := 1, commission := 1800, paid := true },
         { referrer_id := selfie.id, referred_id := 5, level := 2, commission := 900, paid := true },
         { referrer_id := selfie.id, referred_id := 5, level := 3, commission := 500, paid := true }] :=
  (processReferralCommissions_bounded_on_cycles reliable (some "SELF") 5
    { store := selfStore, log := [] }).2 "SELF" selfie (by decide) (by decide) (by decide)
    (by decide)

/-- Example for C22: two users who refer to each other; the run stops after the
third lookup, having paid PING, PONG and PING again. -/
theorem mutual_referral_example :
    ((processReferralCommissions reliable (some "PING") 5
        { store := mutualStore, log := [] }).world.log.filter Op.isSelect) =
      [Op.select "PING", Op.select "PONG", Op.select "PING"] ∧
    (processReferralCommissions reliable (some "PING") 5
        { store := mutualStore, log := [] }).world.store.referrals.map edgeKey =
      [(8, 5, 1), (9, 5, 2), (8, 5, 3)] := by
  decide

/-! ### Eligibility and the target -/

/-- The target `getBonusSettings` returns is never 0. -/
theorem getBonusSettings_target_ne_zero (f : ReadFaults) (db : Db) (log : List Read)
    (settings : BonusSettings) (log' : List Read)
    (hs : getBonusSettings f db log = Outcome.resolved settings log') :
    settings.targetReferrals ≠ 0 := by
  have horD : ∀ x : Option Int, orDefault x 15 ≠ 0 := by
    intro x
    unfold orDefault
    cases x with
    | none => decide
    | some n => by_cases h : n = 0 <;> simp [h]
  by_cases hfail : (∃ e, f log.length = ReadFault.error e) ∨ f log.length = ReadFault.throws ∨
      db.bonus_settings = none ∨ db.bonus_settings = some []
  · rw [getBonusSettings_failed f db log hfail] at hs
    simp only [Outcome.resolved.injEq] at hs
    rw [← hs.1]
    decide
  · have hok : f log.length = ReadFault.ok := by
      cases hf : f log.length with
      | ok => rfl
      | error e => exact absurd (Or.inl ⟨e, hf⟩) hfail
      | throws => exact absurd (Or.inr (Or.inl hf)) hfail
    cases hb : db.bonus_settings with
    | none => exact absurd (Or.inr (Or.inr (Or.inl hb))) hfail
    | some rows =>
      cases rows with
      | nil => exact absurd (Or.inr (Or.inr (Or.inr hb))) hfail
      | cons row rest =>
        rw [getBonusSettings_row f db log row rest hok hb] at hs
        simp only [Outcome.resolved.injEq] at hs
        rw [← hs.1]
        exact horD _

/-- C24, which the code breaks (the defect of C11): in the example database
with the bonus enabled, where every query succeeds, user 1 has 14 level-1 edges
to active users; `getActiveReferralCounts(1)` returns `level1 = 14` and
`calculateBonusEligibility(1)` returns `currentReferrals = 0`. -/
theorem direct_active_counts_disagree :
    ((getActiveReferralCounts dependable (bonusDb 15 14) (some 1) []).value?.map
        (fun counts => counts.level1)) = some 14 ∧
    ((calculateBonusEligibility dependable (bonusDb 15 14) 1 []).value?.map
        (fun r => r.currentReferrals)) = some 0 := by
  decide

/-- C28: for every database, every outcome of the settings read (bonus enabled,
disabled, or settings unavailable), every failure behaviour and every user
id, `calculateBonusEligibility` resolves with a record in which
`bonusEligible = true` exactly when `remainingReferrals = 0`. -/
theorem calculateBonusEligibility_eligible_iff (f : ReadFaults) (db : Db) (userId : UserId)
    (log : List Read) :
    ∃ r log', calculateBonusEligibility f db userId log = Outcome.resolved r log' ∧
      (r.bonusEligible = true ↔ r.remainingReferrals = 0) := by
  obtain ⟨settings, hs⟩ := getBonusSettings_resolves f db log
  have hne := getBonusSettings_target_ne_zero f db log settings _ hs
  obtain ⟨log', h⟩ := calculateBonusEligibility_eq f db userId log settings hs
  refine ⟨_, log', h, ?_⟩
  cases hen : settings.bonusEnabled with
  | false =>
    simp only [if_true]
    constructor
    · intro h0; cases h0
    · intro h0; exact absurd h0 hne
  | true =>
    simp only [Bool.true_eq_false, if_false, decide_eq_true_eq, ge_iff_le]
    constructor
    · intro h0; exact max_eq_left h0
    · intro h0
      have := le_max_right 0 settings.targetReferrals
      omega

/-- C29: for every outcome of the settings read (a stored record with any
numbers, an error, a rejection, no table, no row), `getBonusSettings` resolves
with a `targetReferrals` that is not 0, and so does `calculateBonusEligibility`:
the quotient `currentReferrals / targetReferrals` never has divisor 0. -/
theorem targetReferrals_never_zero (f : ReadFaults) (db : Db) (userId : UserId)
    (log : List Read) :
    (∃ settings log', getBonusSettings f db log = Outcome.resolved settings log' ∧
      settings.targetReferrals ≠ 0) ∧
    (∃ r log', calculateBonusEligibility f db userId log = Outcome.resolved r log' ∧
      r.targetReferrals ≠ 0) := by
  obtain ⟨settings, hs⟩ := getBonusSettings_resolves f db log
  have hne := getBonusSettings_target_ne_zero f db log settings _ hs
  obtain ⟨log', h⟩ := calculateBonusEligibility_eq f db userId log settings hs
  refine ⟨⟨settings, _, hs, hne⟩, _, log', h, ?_⟩
  cases hen : settings.bonusEnabled <;> simpa using hne

/-! ### Operators per country -/

/-- C26 (fails in the code): the country codes stored on users are the keys of
`COUNTRY_CURRENCIES`; five of them (`burkina-faso`, `congo-brazza`, `drc-congo`,
`cote-ivoire`, `niger`) are not keys of `COUNTRY_OPERATORS`, whose keys are
spelt differently, so `getSupportedOperators` answers them with the fallback
`['mtn', 'orange']`: for `drc-congo` that is not the list
`['orange', 'vodacom', 'airtel']` the table holds under `congo_kinshasa`. -/
theorem getSupportedOperators_falls_back_for_stored_codes :
    (COUNTRY_CURRENCIES.map Prod.fst).filter
        (fun code => (COUNTRY_OPERATORS.lookup code).isNone) =
      ["burkina-faso", "congo-brazza", "drc-congo", "cote-ivoire", "niger"] ∧
    getSupportedOperators (userCountryCode (some "drc-congo")) = ["mtn", "orange"] ∧
    COUNTRY_OPERATORS.lookup "congo_kinshasa" = some ["orange", "vodacom", "airtel"] ∧
    getSupportedOperators (userCountryCode (some "cote-ivoire")) = ["mtn", "orange"] ∧
    COUNTRY_OPERATORS.lookup "cote_divoire" = some ["mtn", "wave", "moov", "orange"] := by
  decide

/-! ### Claiming the bonus -/

/-- C25: `claimBonus` leaves the database and the call log as they are when the
bonus is already claimed or the evaluated `bonusEligible` is false (or there is
no evaluation); when eligible and not yet claimed, with both persistence calls
succeeding, it issues exactly one insert and one update: `claimed_bonuses` gains
the row `(user.id, 'welcome', bonusAmount)`, and the rows of `users` with the
user's id get `welcome_bonus`, `balance` and `withdrawable_balance` set to the
user's value (absent counted as 0) plus `bonusAmount`, nothing else changing; so
the user's stored row becomes that row with the three fields raised. -/
theorem claimBonus_effect (f : Faults) (bonusInfo : Option BonusEligibility)
    (bonusClaimed : Bool) (user : Option User) (w : ClaimWorld) :
    ((bonusClaimed = true ∨ ∀ info, bonusInfo = some info → info.bonusEligible = false) →
      claimBonus f bonusInfo bonusClaimed user w = w) ∧
    (∀ info u, bonusInfo = some info → info.bonusEligible = true → bonusClaimed = false →
      user = some u →
      claimBonus reliable bonusInfo bonusClaimed user w =
        { db :=
            { store :=
                { users := w.db.store.users.map (fun x =>
                    if x.id = u.id then
                      { x with
                        welcome_bonus := some (orZero u.welcome_bonus + info.bonusAmount),
                        balance := some (orZero u.balance + info.bonusAmount),
                        withdrawable_balance :=
                          some (orZero u.withdrawable_balance + info.bonusAmount) }
                    else x),
                  referrals := w.db.store.referrals },
              bonus_settings := w.db.bonus_settings,
              claimed_bonuses := w.db.claimed_bonuses ++
                [{ user_id := u.id, type := "welcome", amount := info.bonusAmount }] },
          log := w.log ++
            [ClaimOp.insertClaimed
               { user_id := u.id, type := "welcome", amount := info.bonusAmount },
             ClaimOp.updateUser u.id (orZero u.welcome_bonus + info.bonusAmount)
               (orZero u.balance + info.bonusAmount)
               (orZero u.withdrawable_balance + info.bonusAmount)] } ∧
      (u ∈ w.db.store.users →
        { u with
          welcome_bonus := some (orZero u.welcome_bonus + info.bonusAmount),
          balance := some (orZero u.balance + info.bonusAmount),
          withdrawable_balance := some (orZero u.withdrawable_balance + info.bonusAmount) } ∈
          (claimBonus reliable bonusInfo bonusClaimed user w).db.store.users)) := by
  have run : ∀ info u, bonusInfo = some info → info.bonusEligible = true →
      bonusClaimed = false → user = some u →
      claimBonus reliable bonusInfo bonusClaimed user w =
        { db :=
            { store :=
                { users := w.db.store.users.map (fun x =>
                    if x.id = u.id then
                      { x with
                        welcome_bonus := some (orZero u.welcome_bonus + info.bonusAmount),
                        balance := some (orZero u.balance + info.bonusAmount),
                        withdrawable_balance :=
                          some (orZero u.withdrawable_balance + info.bonusAmount) }
                    else x),
                  referrals := w.db.store.referrals },
              bonus_settings := w.db.bonus_settings,
              claimed_bonuses := w.db.claimed_bonuses ++
                [{ user_id := u.id, type := "welcome", amount := info.bonusAmount }] },
          log := w.log ++
            [ClaimOp.insertClaimed
               { user_id := u.id, type := "welcome", amount := info.bonusAmount },
             ClaimOp.updateUser u.id (orZero u.welcome_bonus + info.bonusAmount)
               (orZero u.balance + info.bonusAmount)
               (orZero u.withdrawable_balance + info.bonusAmount)] } := by
    intro info u hi he hc hu
    subst hi hc hu
    simp [claimBonus, he, reliable, Db.updateBonus]
  refine ⟨?_, ?_⟩
  · rintro (hc | hn)
    · subst hc
      cases bonusInfo <;> cases user <;> rfl
    · cases bonusInfo with
      | none => cases bonusClaimed <;> cases user <;> rfl
      | some info =>
        have he := hn info rfl
        cases bonusClaimed <;> cases user <;> simp [claimBonus, he]
  · intro info u hi he hc hu
    refine ⟨run info u hi he hc hu, ?_⟩
    intro hmem
    rw [run info u hi he hc hu]
    exact List.mem_map.mpr ⟨u, hmem, by simp⟩

/-- C25 at a concrete state: Alice, eligible for a bonus of 700 and holding no
claim, ends with one claim row and her three fields raised by 700. -/
theorem claimBonus_effect_witness :
    claimBonus reliable
        (some { currentReferrals := 15, bonusEligible := true, bonusAmount := 700,
                remainingReferrals := 0, targetReferrals := 15, bonusDisabled := false })
        false (some alice)
        { db := { store := demoStore, bonus_settings := none, claimed_bonuses := [] },
          log := [] } =
      { db :=
          { store :=
              { users := demoStore.users.map (fun x =>
                  if x.id = alice.id then
                    { x with
                      welcome_bonus := some (orZero alice.welcome_bonus + 700),
                      balance := some (orZero alice.balance + 700),
                      withdrawable_balance := some (orZero alice.withdrawable_balance + 700) }
                  else x),
                referrals := demoStore.referrals },
            bonus_settings := none,
            claimed_bonuses := [] ++ [{ user_id := alice.id, type := "welcome", amount := 700 }] },
        log := [] ++
          [ClaimOp.insertClaimed { user_id := alice.id, type := "welcome", amount := 700 },
           ClaimOp.updateUser alice.id (orZero alice.welcome_bonus + 700)
             (orZero alice.balance + 700) (orZero alice.withdrawable_balance + 700)] } :=
  ((claimBonus_effect reliable
      (some { currentReferrals := 15, bonusEligible := true, bonusAmount := 700,
              remainingReferrals := 0, targetReferrals := 15, bonusDisabled := false })
      false (some alice)
      { db := { store := demoStore, bonus_settings := none, claimed_bonuses := [] },
        log := [] }).2 _ alice rfl rfl rfl rfl).1

/-- A failed insert into `claimed_bonuses` stops `claimBonus` before the update:
the database is unchanged. -/
theorem claimBonus_insert_failure (f : Faults) (info : BonusEligibility) (u : User)
    (w : ClaimWorld) (hf : f w.log.length ≠ Fault.ok) :
    (claimBonus f (some info) false (some u) w).db = w.db := by
  unfold claimBonus
  by_cases he : info.bonusEligible = false
  · simp [he]
  · cases hfl : f w.log.length with
    | ok => exact absurd hfl hf
    | error => simp [he, hfl]
    | throws => simp [he, hfl]

/-! ### Withdrawals -/

/-- C30: when `validateWithdrawal` accepts the input of one of the three forms,
the parsed amount is a finite number with `0 < amount` and
`minWithdrawal <= amount <= availableBalance`, the minimum being 2500 for the
main balance and 500 for the two video balances; the update `handleWithdrawal`
issues (it issues it when the insert succeeds, and never another one) sets the
selected balance to `availableBalance - amount`, which is not negative, sets
`total_withdrawals` to its previous value (absent counted as 0) plus `amount`,
and holds no other balance field. -/
theorem validateWithdrawal_accepts_safe (parseFloat : String → JsNumber) (user : User)
    (balanceType : BalanceType) (withdrawalData : WithdrawalData)
    (h : validateWithdrawal parseFloat (withdrawalFormProps user balanceType) withdrawalData
      = true) :
    ∃ amount : ℚ, parseFloat withdrawalData.amount = JsNumber.finite amount ∧
      0 < amount ∧
      ((withdrawalFormProps user balanceType).minWithdrawal : ℚ) ≤ amount ∧
      amount ≤ ((withdrawalFormProps user balanceType).availableBalance : ℚ) ∧
      (withdrawalFormProps user balanceType).minWithdrawal =
        (match balanceType with
         | .main => 2500
         | .youtube => 500
         | .tiktok => 500) ∧
      0 ≤ ((withdrawalFormProps user balanceType).availableBalance : ℚ) - amount ∧
      handleWithdrawal parseFloat (withdrawalFormProps user balanceType) withdrawalData
          ReadFault.ok =
        some (match balanceType with
          | .main =>
            { balance := none,
              withdrawable_balance :=
                some (JsNumber.finite ((orZero user.withdrawable_balance : ℚ) - amount)),
              youtube_balance := none, tiktok_balance := none,
              total_withdrawals :=
                some (JsNumber.finite ((orZero user.total_withdrawals : ℚ) + amount)) }
          | .youtube =>
            { balance := none, withdrawable_balance := none,
              youtube_balance :=
                some (JsNumber.finite ((orZero user.youtube_balance : ℚ) - amount)),
              tiktok_balance := none,
              total_withdrawals :=
                some (JsNumber.finite ((orZero user.total_withdrawals : ℚ) + amount)) }
          | .tiktok =>
            { balance := none, withdrawable_balance := none, youtube_balance := none,
              tiktok_balance :=
                some (JsNumber.finite ((orZero user.tiktok_balance : ℚ) - amount)),
              total_withdrawals :=
                some (JsNumber.finite ((orZero user.total_withdrawals : ℚ) + amount)) }) ∧
      ∀ insertOutcome update,
        handleWithdrawal parseFloat (withdrawalFormProps user balanceType) withdrawalData
            insertOutcome = some update →
        some update =
          handleWithdrawal parseFloat (withdrawalFormProps user balanceType) withdrawalData
            ReadFault.ok := by
  have hv := h
  unfold validateWithdrawal at h
  cases hp : parseFloat withdrawalData.amount with
  | nan => simp [hp, JsNumber.isNaN] at h
  | posInf =>
    simp [hp, JsNumber.isNaN, JsNumber.le, JsNumber.lt, JsNumber.gt] at h
  | negInf =>
    simp [hp, JsNumber.isNaN, JsNumber.le] at h
  | finite a =>
    simp only [hp, JsNumber.isNaN, JsNumber.le, JsNumber.lt, JsNumber.gt] at h
    split_ifs at h with h1 h2 h3 h4
    simp at h2 h3 h4
    refine ⟨a, rfl, h2, h3, h4, ?_, by linarith, ?_, ?_⟩
    · cases balanceType <;> rfl
    · have hrun : handleWithdrawal parseFloat (withdrawalFormProps user balanceType)
          withdrawalData ReadFault.ok =
          some (balanceUpdates (withdrawalFormProps user balanceType).user
            (withdrawalFormProps user balanceType).balanceType (JsNumber.finite a)) := by
        simp [handleWithdrawal, hv, hp]
      rw [hrun]
      cases balanceType <;>
        simp [balanceUpdates, withdrawalFormProps, JsNumber.subFrom, JsNumber.addTo]
    · intro insertOutcome update hu
      cases insertOutcome with
      | ok => exact hu.symm
      | throws => simp [handleWithdrawal, hv] at hu
      | error e =>
        by_cases hc : e.code = some "42501"
        · simp [handleWithdrawal, hv, hc] at hu ⊢
          exact hu.symm
        · simp [handleWithdrawal, hv, hc] at hu

/-- C30 at a concrete input: a user holding 5000 on the main balance asks for
3000; the form accepts, and the amount lies between the minimum and the
balance. -/
theorem validateWithdrawal_accepts_safe_witness :
    validateWithdrawal (fun _ => JsNumber.finite 3000)
        (withdrawalFormProps (mkUser 1 "ALICE" none (some 5000)) BalanceType.main)
        { amount := "3000", country := "benin", operator := "mtn", phone := "0197000000" }
      = true ∧
    ∃ amount : ℚ, JsNumber.finite 3000 = JsNumber.finite amount ∧
      0 < amount ∧
      ((withdrawalFormProps (mkUser 1 "ALICE" none (some 5000)) BalanceType.main).minWithdrawal
        : ℚ) ≤ amount ∧
      amount ≤
        ((withdrawalFormProps (mkUser 1 "ALICE" none (some 5000)) BalanceType.main).availableBalance
          : ℚ) :=
  ⟨by decide,
   match validateWithdrawal_accepts_safe (fun _ => JsNumber.finite 3000)
      (mkUser 1 "ALICE" none (some 5000)) BalanceType.main
      { amount := "3000", country := "benin", operator := "mtn", phone := "0197000000" }
      (by decide) with
   | ⟨amount, hp, h0, hmin, hmax, _⟩ => ⟨amount, hp, h0, hmin, hmax⟩⟩

/-! ### Concrete runs of the frame properties -/

/-- Witness of C21: the call made for DAVE, recruited by CAROL, on the example
store. -/
theorem processReferralCommissions_appends_witness :
    ∃ es : List Referral,
      (processReferralCommissions reliable (some "CAROL") 4
          { store := demoStore, log := [] }).world.store.referrals =
        demoStore.referrals ++ es ∧
      ∀ e ∈ es, e.referred_id = 4 ∧ e.paid = true :=
  processReferralCommissions_appends reliable (some "CAROL") 4 { store := demoStore, log := [] }

/-- Witness of C23: the call made for DAVE, recruited by CAROL, leaves the row of
DAVE, who is none of the three ancestors, as it was. -/
theorem processReferralCommissions_writes_balances_only_witness :
    dave ∈ (processReferralCommissions reliable (some "CAROL") 4
      { store := demoStore, log := [] }).world.store.users := by
  obtain ⟨-, g, hu, -, -, hnew⟩ :=
    processReferralCommissions_writes_balances_only reliable (some "CAROL") 4
      { store := demoStore, log := [] }
  rw [hu]
  exact List.mem_map.mpr ⟨dave, by decide, hnew (by decide) dave rfl⟩

end Qashgo
